import Mathlib

/-!
# ARM highmem: atomic kernel mappings (arch/arm/mm/highmem.c)

A shallow embedding of `kmap_atomic`, `__kunmap_atomic`, `kmap_atomic_pfn`,
`kmap_atomic_to_page` and `switch_kmaps`, with the properties of the
per-CPU slot stack proved over it.

Conventions.
* `unsigned long` is 32 bits wide on ARM; addresses are `Nat`, and the one
  place the source masks an address (`& PAGE_MASK`) uses the 32-bit mask.
* `int` values that the source lets go negative (`type`, `idx`, the nesting
  index) are `Int`.
* A `struct page` is named by its frame number (`page_to_pfn`), so
  `mk_pte(page, prot)` is `pfn_pte(page_to_pfn(page), prot)` and
  `pte_page(pte)` is `pfn_to_page(pte_pfn(pte))`.
* Calls into the rest of the kernel that have an effect are recorded, in
  program order, in `State.log`.
* `BUG()` / `BUG_ON(true)` halts: the function yields `Outcome.bug` with the
  state reached at the halt, and nothing after it runs.
-/

namespace Highmem

/-- A page-table entry value (`pte_t`); `0` is the empty entry (`__pte(0)`). -/
abbrev Pte := Nat

/-- A page descriptor (`struct page *`), named by its frame number. -/
abbrev Page := Nat

/-- Calls with an effect outside the mapper, in the order they are issued. -/
inductive Event where
  | pagefault_disable
  | pagefault_enable
  | kmap_high_get (page : Page)
  | kunmap_high (page : Page)
  | flush_dcache_area (vaddr : Nat) (size : Nat)
  | set_top_pte (vaddr : Nat) (pte : Pte)
  deriving DecidableEq, Repr

/-- Which fatal assertion stopped the kernel. -/
inductive Bug where
  /-- Slot exhaustion in `kmap_atomic_idx_push`. -/
  | idx_push
  /-- Pop with no matching push in `kmap_atomic_idx_pop`. -/
  | idx_pop
  /-- `BUG_ON(!pte_none(get_top_pte(vaddr)))` in the two map functions. -/
  | slot_not_free
  /-- `BUG_ON(vaddr != __fix_to_virt(FIX_KMAP_BEGIN + idx))` in the unmap. -/
  | lifo
  deriving DecidableEq, Repr

/-- Constants, macros and configuration switches that `highmem.c` takes from
kernel headers.  They are parameters of the model. -/
structure Arch where
  /-- `KM_TYPE_NR`: slots per CPU. -/
  KM_TYPE_NR : Nat
  /-- `NR_CPUS`. -/
  NR_CPUS : Nat
  /-- Value of `smp_processor_id()` on the executing CPU. -/
  cpu : Nat
  /-- `PAGE_SHIFT`. -/
  PAGE_SHIFT : Nat
  /-- `FIXADDR_START`. -/
  FIXADDR_START : Nat
  /-- `FIX_KMAP_BEGIN`. -/
  FIX_KMAP_BEGIN : Int
  /-- `__fix_to_virt(x)`. -/
  fix_to_virt : Int → Nat
  /-- `PKMAP_ADDR(nr)`. -/
  PKMAP_ADDR : Nat → Nat
  /-- `PKMAP_NR(virt)`. -/
  PKMAP_NR : Nat → Nat
  /-- `LAST_PKMAP`. -/
  LAST_PKMAP : Nat
  /-- `PageHighMem(page)`. -/
  PageHighMem : Page → Bool
  /-- `page_address(page)` for a page that is not highmem. -/
  page_address : Page → Nat
  /-- `virt_to_page(ptr)`. -/
  virt_to_page : Nat → Page
  /-- `pfn_pte(pfn, kmap_prot)`. -/
  pfn_pte : Nat → Pte
  /-- `pte_pfn(pte)`. -/
  pte_pfn : Pte → Nat
  /-- `CONFIG_DEBUG_HIGHMEM`. -/
  DEBUG_HIGHMEM : Bool
  /-- `CONFIG_PREEMPT_RT_FULL`. -/
  PREEMPT_RT_FULL : Bool
  /-- `cache_is_vivt()`. -/
  cache_is_vivt : Bool

/-- `PAGE_SIZE`. -/
def Arch.PAGE_SIZE (c : Arch) : Nat := 1 <<< c.PAGE_SHIFT

/-- `PAGE_MASK`, that is `~(PAGE_SIZE-1)` in 32 bits. -/
def Arch.PAGE_MASK (c : Arch) : Nat := 2 ^ 32 - c.PAGE_SIZE

/-- The fields of `struct task_struct` the mapper uses: the nesting index of
the execution context and, under `CONFIG_PREEMPT_RT_FULL`, the task's copy of
its slot bindings. -/
structure Task where
  kmap_idx : Int
  kmap_pte : Int → Pte

/-- Kernel state seen by the mapper on one CPU. -/
structure State where
  /-- The running context (`current`). -/
  current : Task
  /-- The page-table entries read by `get_top_pte` and written by
  `set_top_pte`, by virtual address. -/
  top_pte : Nat → Pte
  /-- The persistent mapper's address of a highmem page, `0` (NULL) when it has
  none. -/
  pkmap_vaddr : Page → Nat
  /-- `pkmap_page_table[]`. -/
  pkmap_page_table : Nat → Pte
  /-- Effects issued so far, oldest first. -/
  log : List Event

/-- Result of a call: a normal return, or a halt in `BUG()`. -/
inductive Outcome (α : Type) where
  | ok (ret : α) (s : State)
  | bug (why : Bug) (s : State)

/-- The state a call ends in, returning or halting. -/
def Outcome.state {α : Type} : Outcome α → State
  | .ok _ s => s
  | .bug _ s => s

/-- The value returned, if the call returns. -/
def Outcome.ret? {α : Type} : Outcome α → Option α
  | .ok r _ => some r
  | .bug _ _ => none

/-- The assertion that halted the call, if it halted. -/
def Outcome.why? {α : Type} : Outcome α → Option Bug
  | .ok _ _ => none
  | .bug w _ => some w

/-- Write the nesting index of the running context. -/
def set_kmap_idx (s : State) (k : Int) : State :=
  { s with current := { s.current with kmap_idx := k } }

/-- The assignment `current->kmap_pte[type] = pte`. -/
def set_kmap_pte (s : State) (type : Int) (pte : Pte) : State :=
  { s with current := { s.current with kmap_pte := Function.update s.current.kmap_pte type pte } }

/-- Append one effect to the log. -/
def emit (s : State) (e : Event) : State := { s with log := s.log ++ [e] }

/-- Modelled from the spec: `pagefault_disable` (linux/uaccess.h, not part of
highmem.c): "disable page-fault handling for the duration"; recorded as an
effect. -/
def pagefault_disable (s : State) : State := emit s .pagefault_disable

/-- Modelled from the spec: `pagefault_enable` (linux/uaccess.h, not part of
highmem.c): "re-enable page faults"; recorded as an effect. -/
def pagefault_enable (s : State) : State := emit s .pagefault_enable

/-- `pte_none(pte)`. -/
def pte_none (pte : Pte) : Bool := pte == 0

/-- `mk_pte(page, kmap_prot)`. -/
def mk_pte (c : Arch) (page : Page) : Pte := c.pfn_pte page

/-- `pte_page(pte)`. -/
def pte_page (c : Arch) (pte : Pte) : Page := c.pte_pfn pte

/-- Modelled from the spec: `get_top_pte` (arch/arm/mm/mm.h, not part of highmem.c), the
debug read `current_binding(address)` of the page-table binding of an
address; it reads and never mutates. -/
def get_top_pte (s : State) (vaddr : Nat) : Pte := s.top_pte vaddr

/-- Modelled from the spec: `set_top_pte` (arch/arm/mm/mm.h, not part of highmem.c), the
page-table write primitive `bind(address, frame, protection)`, and
`unbind(address)` when the entry written is `__pte(0)`. -/
def set_top_pte (s : State) (vaddr : Nat) (pte : Pte) : State :=
  { s with top_pte := Function.update s.top_pte vaddr pte,
           log := s.log ++ [.set_top_pte vaddr pte] }

/-- Modelled from the spec: `__cpuc_flush_dcache_area` (asm/cacheflush.h,
not part of highmem.c), the "flush range" primitive. -/
def flush_dcache_area (s : State) (vaddr size : Nat) : State :=
  emit s (.flush_dcache_area vaddr size)

/-- Modelled from the spec: `kmap_high_get` (generic mm/highmem.c, not part of this file):
"check whether the persistent mapper already has this exact page mapped; if
so ... reuse that address"; NULL (`0`) otherwise. -/
def kmap_high_get (s : State) (page : Page) : Nat × State :=
  (s.pkmap_vaddr page, emit s (.kmap_high_get page))

/-- Modelled from the spec: `kunmap_high` (generic mm/highmem.c, not part of this file): release
is delegated to the persistent mapper, which "tracks its own refcounts". -/
def kunmap_high (s : State) (page : Page) : State := emit s (.kunmap_high page)

/-- Modelled from the spec: `kmap_atomic_idx_push` (linux/highmem.h, not part
of highmem.c): "`push() -> SlotIndex` — fails fatally ... if the count would exceed
`SLOTS_PER_CPU`"; the index handed out is the count before the increment. -/
def kmap_atomic_idx_push (c : Arch) (s : State) : Outcome Int :=
  if s.current.kmap_idx + 1 > (c.KM_TYPE_NR : Int) then .bug .idx_push s
  else .ok s.current.kmap_idx (set_kmap_idx s (s.current.kmap_idx + 1))

/-- Modelled from the spec: `kmap_atomic_idx` (linux/highmem.h, not part of highmem.c):
the most recently pushed, not-yet-popped index. -/
def kmap_atomic_idx (s : State) : Int := s.current.kmap_idx - 1

/-- Modelled from the spec: `kmap_atomic_idx_pop` (linux/highmem.h, not part
of highmem.c): the nesting index is "decremented on every atomic unmap request";
"calling `pop` with no matching `push` is a contract violation", which is
fatal. -/
def kmap_atomic_idx_pop (s : State) : Outcome Unit :=
  if s.current.kmap_idx ≤ 0 then .bug .idx_pop s
  else .ok () (set_kmap_idx s (s.current.kmap_idx - 1))

/-- The address `__fix_to_virt(FIX_KMAP_BEGIN + idx)` with
`idx = type + KM_TYPE_NR * smp_processor_id()`, as `kmap_atomic`,
`__kunmap_atomic`, `kmap_atomic_pfn` and `switch_kmaps` all compute it. -/
def slot_vaddr (c : Arch) (type : Int) : Nat :=
  c.fix_to_virt (c.FIX_KMAP_BEGIN + (type + (c.KM_TYPE_NR : Int) * (c.cpu : Int)))

/-- Lines 64-85 of `kmap_atomic`, shared verbatim with `kmap_atomic_pfn`
(lines 126-137): push, compute the slot address, debug check, bind. -/
def kmap_atomic_slot (c : Arch) (s : State) (pte : Pte) : Outcome Nat :=
  match kmap_atomic_idx_push c s with
  | .bug w s => .bug w s
  | .ok type s =>
    let vaddr := slot_vaddr c type
    if c.DEBUG_HIGHMEM && !pte_none (get_top_pte s vaddr) then .bug .slot_not_free s
    else
      let s := if c.PREEMPT_RT_FULL then set_kmap_pte s type pte else s
      let s := set_top_pte s vaddr pte
      .ok vaddr s

/-- `void *kmap_atomic(struct page *page)`. -/
def kmap_atomic (c : Arch) (s : State) (page : Page) : Outcome Nat :=
  let pte := mk_pte c page
  let s := pagefault_disable s
  if !c.PageHighMem page then .ok (c.page_address page) s
  else
    let r := if c.DEBUG_HIGHMEM && !c.cache_is_vivt then (0, s) else kmap_high_get s page
    let kmap := r.1
    let s := r.2
    if kmap ≠ 0 then .ok kmap s
    else kmap_atomic_slot c s pte

/-- `void __kunmap_atomic(void *kvaddr)`. -/
def __kunmap_atomic (c : Arch) (s : State) (kvaddr : Nat) : Outcome Unit :=
  let vaddr := kvaddr &&& c.PAGE_MASK
  if kvaddr ≥ c.FIXADDR_START then
    let type := kmap_atomic_idx s
    let s := if c.cache_is_vivt then flush_dcache_area s vaddr c.PAGE_SIZE else s
    let s := if c.PREEMPT_RT_FULL then set_kmap_pte s type 0 else s
    if c.DEBUG_HIGHMEM && vaddr != slot_vaddr c type then .bug .lifo s
    else
      let s := set_top_pte s vaddr 0
      match kmap_atomic_idx_pop s with
      | .bug w s => .bug w s
      | .ok _ s => .ok () (pagefault_enable s)
  else if vaddr ≥ c.PKMAP_ADDR 0 ∧ vaddr < c.PKMAP_ADDR c.LAST_PKMAP then
    let s := kunmap_high s (pte_page c (s.pkmap_page_table (c.PKMAP_NR vaddr)))
    .ok () (pagefault_enable s)
  else .ok () (pagefault_enable s)

/-- `void *kmap_atomic_pfn(unsigned long pfn)`. -/
def kmap_atomic_pfn (c : Arch) (s : State) (pfn : Nat) : Outcome Nat :=
  let pte := c.pfn_pte pfn
  let s := pagefault_disable s
  kmap_atomic_slot c s pte

/-- `struct page *kmap_atomic_to_page(const void *ptr)`. -/
def kmap_atomic_to_page (c : Arch) (s : State) (ptr : Nat) : Page :=
  let vaddr := ptr
  if vaddr < c.FIXADDR_START then c.virt_to_page ptr
  else pte_page c (get_top_pte s vaddr)

/-- The first loop of `switch_kmaps`: `for (i = 0; i < prev_p->kmap_idx; i++)`
clears slot `i`; `n` is the number of iterations. -/
def switch_kmaps_clear (c : Arch) (s : State) : Nat → State
  | 0 => s
  | n + 1 => set_top_pte (switch_kmaps_clear c s n) (slot_vaddr c (n : Int)) 0

/-- The second loop of `switch_kmaps`: `for (i = 0; i < next_p->kmap_idx; i++)`
rebinds slot `i` from the snapshot when the snapshot entry is not none. -/
def switch_kmaps_restore (c : Arch) (next_p : Task) (s : State) : Nat → State
  | 0 => s
  | n + 1 =>
    let s := switch_kmaps_restore c next_p s n
    if !pte_none (next_p.kmap_pte (n : Int)) then
      set_top_pte s (slot_vaddr c (n : Int)) (next_p.kmap_pte (n : Int))
    else s

/-- `void switch_kmaps(struct task_struct *prev_p, struct task_struct *next_p)`
(built only under `CONFIG_PREEMPT_RT_FULL`). -/
def switch_kmaps (c : Arch) (s : State) (prev_p next_p : Task) : State :=
  let s := switch_kmaps_clear c s prev_p.kmap_idx.toNat
  switch_kmaps_restore c next_p s next_p.kmap_idx.toNat

/-! ## Call sequences and layout assumptions -/

/-- Nested `kmap_atomic` calls on the pages of a list, in order; the addresses
returned, in call order. -/
def kmap_atomic_all (c : Arch) : State → List Page → Outcome (List Nat)
  | s, [] => .ok [] s
  | s, p :: ps =>
    match kmap_atomic c s p with
    | .bug w s => .bug w s
    | .ok v s =>
      match kmap_atomic_all c s ps with
      | .bug w s => .bug w s
      | .ok vs s => .ok (v :: vs) s

/-- Successive `__kunmap_atomic` calls on the addresses of a list, in order. -/
def kunmap_atomic_all (c : Arch) : State → List Nat → Outcome Unit
  | s, [] => .ok () s
  | s, v :: vs =>
    match __kunmap_atomic c s v with
    | .bug w s => .bug w s
    | .ok _ s => kunmap_atomic_all c s vs

/-- Every slot of the current CPU with index at least `k` has an empty
page-table entry. -/
def SlotsFreeFrom (c : Arch) (s : State) (k : Int) : Prop :=
  ∀ t : Int, k ≤ t → t < (c.KM_TYPE_NR : Int) → get_top_pte s (slot_vaddr c t) = 0

/-- What the model assumes of the fixmap layout macros: the executing CPU is
one of `NR_CPUS`, and over the kmap part of the fixmap, `__fix_to_virt` is
one-to-one, page aligned, and at or above `FIXADDR_START`. -/
structure FixmapLayout (c : Arch) : Prop where
  cpu_lt : c.cpu < c.NR_CPUS
  inj : ∀ x y : Int, 0 ≤ x → x < (c.KM_TYPE_NR : Int) * (c.NR_CPUS : Int) →
    0 ≤ y → y < (c.KM_TYPE_NR : Int) * (c.NR_CPUS : Int) →
    c.fix_to_virt (c.FIX_KMAP_BEGIN + x) = c.fix_to_virt (c.FIX_KMAP_BEGIN + y) → x = y
  above : ∀ x : Int, 0 ≤ x → x < (c.KM_TYPE_NR : Int) * (c.NR_CPUS : Int) →
    c.FIXADDR_START ≤ c.fix_to_virt (c.FIX_KMAP_BEGIN + x)
  aligned : ∀ x : Int, 0 ≤ x → x < (c.KM_TYPE_NR : Int) * (c.NR_CPUS : Int) →
    c.fix_to_virt (c.FIX_KMAP_BEGIN + x) &&& c.PAGE_MASK = c.fix_to_virt (c.FIX_KMAP_BEGIN + x)

/-- The permanent address of every page that is not highmem lies below the
fixmap. -/
def LowmemBelowFixmap (c : Arch) : Prop :=
  ∀ page : Page, c.PageHighMem page = false → c.page_address page < c.FIXADDR_START

/-- Every address the persistent mapper holds lies below the fixmap. -/
def PkmapBelowFixmap (c : Arch) (s : State) : Prop :=
  ∀ page : Page, s.pkmap_vaddr page < c.FIXADDR_START

/-- `kmap_high_get` is bypassed or finds nothing for this page, so that
`kmap_atomic` goes on to take a slot. -/
def NoPersistentMapping (c : Arch) (s : State) (page : Page) : Prop :=
  (c.DEBUG_HIGHMEM = true ∧ c.cache_is_vivt = false) ∨ s.pkmap_vaddr page = 0

/-- What one address returned by `kmap_atomic` looks like, by whether the
page has a persistent mapping to reuse in state `s`. -/
def ReturnedFor (c : Arch) (s : State) (page : Page) (v : Nat) : Prop :=
  (NoPersistentMapping c s page → c.FIXADDR_START ≤ v) ∧
  (¬ NoPersistentMapping c s page → v = s.pkmap_vaddr page)

/-- The outstanding addresses (most recent first) account for the slots in
use at depth `k`: read from the top, the fixmap addresses among them are those
of slots `k-1`, ..., `0`; the others lie below the fixmap. -/
def StackOk (c : Arch) : Nat → List Nat → Prop
  | k, [] => k = 0
  | k, v :: stk =>
    (v < c.FIXADDR_START ∧ StackOk c k stk) ∨
    (c.FIXADDR_START ≤ v ∧ ∃ j : Nat, k = j + 1 ∧ v = slot_vaddr c (j : Int) ∧ StackOk c j stk)

/-- Is the event a cache flush? -/
def Event.isFlush : Event → Bool
  | .flush_dcache_area _ _ => true
  | _ => false

/-- The scheduler's switch to `next_p` (kernel/sched, not part of highmem.c) as far as
the mapper sees it: `switch_kmaps(current, next_p)` runs, then `next_p` is
`current`. -/
def context_switch (c : Arch) (s : State) (next_p : Task) : State :=
  { switch_kmaps c s s.current next_p with current := next_p }

/-- States reached by well-nested calls, together with the addresses handed
out and not yet unmapped, most recent first.  An unmap takes the most recent
outstanding address. -/
inductive Reachable (c : Arch) : State → List Nat → Prop where
  | init (s : State) : s.current.kmap_idx = 0 → SlotsFreeFrom c s 0 →
      PkmapBelowFixmap c s → Reachable c s []
  | map (s s' : State) (stk : List Nat) (page : Page) (v : Nat) :
      Reachable c s stk → kmap_atomic c s page = .ok v s' → Reachable c s' (v :: stk)
  | map_pfn (s s' : State) (stk : List Nat) (pfn : Nat) (v : Nat) :
      Reachable c s stk → kmap_atomic_pfn c s pfn = .ok v s' → Reachable c s' (v :: stk)
  | unmap (s s' : State) (stk : List Nat) (v : Nat) :
      Reachable c s (v :: stk) → __kunmap_atomic c s v = .ok () s' → Reachable c s' stk

/-! ## A concrete instance

A 32-bit ARM board with 4 KiB pages: RAM at physical `0x80000000`, the linear
map at `PAGE_OFFSET = 0xC0000000`, lowmem up to frame `0xAF800`, the
persistent-map window of 512 pages at `0xBFE00000`, the fixmap at
`0xFFF00000`, 16 kmap slots per CPU, two CPUs, executing on CPU 1. -/

def arm (debug rt vivt : Bool) : Arch where
  KM_TYPE_NR := 16
  NR_CPUS := 2
  cpu := 1
  PAGE_SHIFT := 12
  FIXADDR_START := 0xfff00000
  FIX_KMAP_BEGIN := 0
  -- FIXADDR_START + (x << PAGE_SHIFT), in 32 bits
  fix_to_virt := fun x => ((0xfff00000 + x * 4096) % 4294967296).toNat
  -- PKMAP_BASE + (nr << PAGE_SHIFT), with PKMAP_BASE = PAGE_OFFSET - PMD_SIZE
  PKMAP_ADDR := fun nr => (0xbfe00000 + nr * 4096) % 4294967296
  -- (virt - PKMAP_BASE) >> PAGE_SHIFT
  PKMAP_NR := fun v => ((v + 4294967296 - 0xbfe00000) % 4294967296) / 4096
  LAST_PKMAP := 512
  PageHighMem := fun pfn => decide (0xaf800 ≤ pfn)
  -- __va(pfn << PAGE_SHIFT): physical minus PHYS_OFFSET plus PAGE_OFFSET
  page_address := fun pfn => ((pfn + 1048576 - 0x80000) * 4096 + 0xc0000000) % 4294967296
  -- pfn_to_page(__pa(ptr) >> PAGE_SHIFT): virtual minus PAGE_OFFSET plus PHYS_OFFSET
  virt_to_page := fun v => ((v + 4294967296 - 0xc0000000 + 0x80000000) % 4294967296) / 4096
  -- (pfn << PAGE_SHIFT) | pgprot_val(kmap_prot), with protection bits 0x45f
  pfn_pte := fun pfn => ((pfn * 4096) % 4294967296) ||| 0x45f
  -- pte_val(pte) >> PAGE_SHIFT
  pte_pfn := fun pte => pte / 4096
  DEBUG_HIGHMEM := debug
  PREEMPT_RT_FULL := rt
  cache_is_vivt := vivt

/-- The same board with two slots per CPU. -/
def arm2 (debug rt vivt : Bool) : Arch := { arm debug rt vivt with KM_TYPE_NR := 2 }

/-- A task with no atomic mapping outstanding. -/
def idle_task : Task := { kmap_idx := 0, kmap_pte := fun _ => 0 }

/-- A state of the board above with an empty log, all fixmap entries empty,
and the persistent mapper holding the pages listed in `pk` (page, address):
`pkmap_vaddr` gives the address of a listed page and `pkmap_page_table` holds
the page's entry at the index of that address. -/
def boot_state (pk : List (Page × Nat)) : State where
  current := idle_task
  top_pte := fun _ => 0
  pkmap_vaddr := fun page => ((pk.find? (fun e => e.1 == page)).map Prod.snd).getD 0
  pkmap_page_table := fun nr =>
    ((pk.find? (fun e => (arm false false false).PKMAP_NR e.2 == nr)).map
      (fun e => (arm false false false).pfn_pte e.1)).getD 0
  log := []

/-! ## Basic facts about the primitives -/

@[simp] theorem emit_current (s : State) (e : Event) : (emit s e).current = s.current := rfl
@[simp] theorem emit_top_pte (s : State) (e : Event) : (emit s e).top_pte = s.top_pte := rfl
@[simp] theorem emit_pkmap_vaddr (s : State) (e : Event) :
    (emit s e).pkmap_vaddr = s.pkmap_vaddr := rfl
@[simp] theorem emit_pkmap_page_table (s : State) (e : Event) :
    (emit s e).pkmap_page_table = s.pkmap_page_table := rfl
@[simp] theorem emit_log (s : State) (e : Event) : (emit s e).log = s.log ++ [e] := rfl

@[simp] theorem set_kmap_idx_kmap_idx (s : State) (k : Int) :
    (set_kmap_idx s k).current.kmap_idx = k := rfl
@[simp] theorem set_kmap_idx_kmap_pte (s : State) (k : Int) :
    (set_kmap_idx s k).current.kmap_pte = s.current.kmap_pte := rfl
@[simp] theorem set_kmap_idx_top_pte (s : State) (k : Int) :
    (set_kmap_idx s k).top_pte = s.top_pte := rfl
@[simp] theorem set_kmap_idx_pkmap_vaddr (s : State) (k : Int) :
    (set_kmap_idx s k).pkmap_vaddr = s.pkmap_vaddr := rfl
@[simp] theorem set_kmap_idx_log (s : State) (k : Int) : (set_kmap_idx s k).log = s.log := rfl

@[simp] theorem set_kmap_pte_kmap_idx (s : State) (t : Int) (p : Pte) :
    (set_kmap_pte s t p).current.kmap_idx = s.current.kmap_idx := rfl
@[simp] theorem set_kmap_pte_kmap_pte (s : State) (t : Int) (p : Pte) :
    (set_kmap_pte s t p).current.kmap_pte = Function.update s.current.kmap_pte t p := rfl
@[simp] theorem set_kmap_pte_top_pte (s : State) (t : Int) (p : Pte) :
    (set_kmap_pte s t p).top_pte = s.top_pte := rfl
@[simp] theorem set_kmap_pte_pkmap_vaddr (s : State) (t : Int) (p : Pte) :
    (set_kmap_pte s t p).pkmap_vaddr = s.pkmap_vaddr := rfl
@[simp] theorem set_kmap_pte_log (s : State) (t : Int) (p : Pte) :
    (set_kmap_pte s t p).log = s.log := rfl

@[simp] theorem set_top_pte_current (s : State) (a : Nat) (p : Pte) :
    (set_top_pte s a p).current = s.current := rfl
@[simp] theorem set_top_pte_top_pte (s : State) (a : Nat) (p : Pte) :
    (set_top_pte s a p).top_pte = Function.update s.top_pte a p := rfl
@[simp] theorem set_top_pte_pkmap_vaddr (s : State) (a : Nat) (p : Pte) :
    (set_top_pte s a p).pkmap_vaddr = s.pkmap_vaddr := rfl
@[simp] theorem set_top_pte_log (s : State) (a : Nat) (p : Pte) :
    (set_top_pte s a p).log = s.log ++ [.set_top_pte a p] := rfl

/-- For a page that is not highmem `kmap_atomic` returns right after
`pagefault_disable`. -/
theorem kmap_atomic_low_eq (c : Arch) (s : State) (page : Page)
    (hlow : c.PageHighMem page = false) :
    kmap_atomic c s page = .ok (c.page_address page) (pagefault_disable s) := by
  simp [kmap_atomic, hlow]

/-- C1: for a page that is not highmem, at any nesting depth, `kmap_atomic`
returns `page_address(page)`, and neither the nesting index (nor anything
else of the running context) nor any page-table entry changes. -/
theorem kmap_atomic_lowmem_fast_path (c : Arch) (s : State) (page : Page)
    (hlow : c.PageHighMem page = false) :
    ∃ s', kmap_atomic c s page = .ok (c.page_address page) s' ∧
      s'.current.kmap_idx = s.current.kmap_idx ∧
      (∀ vaddr, get_top_pte s' vaddr = get_top_pte s vaddr) := by
  refine ⟨pagefault_disable s, ?_, rfl, fun _ => rfl⟩
  simp [kmap_atomic, hlow]

theorem kmap_atomic_lowmem_fast_path_witness :
    (arm true true true).PageHighMem 0x80010 = false ∧
    ∃ s', kmap_atomic (arm true true true) (boot_state []) 0x80010
        = .ok ((arm true true true).page_address 0x80010) s' ∧
      s'.current.kmap_idx = (boot_state []).current.kmap_idx ∧
      (∀ vaddr, get_top_pte s' vaddr = get_top_pte (boot_state []) vaddr) :=
  ⟨by decide, kmap_atomic_lowmem_fast_path (arm true true true) (boot_state []) 0x80010 (by decide)⟩

/-- C3: in a debug build, with at least one slot in use, unmapping a fixmap
address whose page is not the most recently pushed slot of the current CPU
halts in the LIFO `BUG_ON`; no page-table entry is cleared and the nesting
index is not popped. -/
theorem kunmap_atomic_lifo_violation (c : Arch) (s : State) (kvaddr : Nat)
    (hdebug : c.DEBUG_HIGHMEM = true)
    (hfix : c.FIXADDR_START ≤ kvaddr)
    (hne : kvaddr &&& c.PAGE_MASK ≠ slot_vaddr c (s.current.kmap_idx - 1)) :
    ∃ s', __kunmap_atomic c s kvaddr = .bug .lifo s' ∧
      (∀ vaddr, get_top_pte s' vaddr = get_top_pte s vaddr) ∧
      s'.current.kmap_idx = s.current.kmap_idx := by
  unfold __kunmap_atomic
  simp only [ge_iff_le, hfix, if_true, kmap_atomic_idx, hdebug, Bool.true_and, bne_iff_ne, ne_eq,
    hne, not_false_eq_true]
  refine ⟨_, rfl, ?_, ?_⟩
  · intro vaddr
    cases c.cache_is_vivt <;> cases c.PREEMPT_RT_FULL <;> rfl
  · cases c.cache_is_vivt <;> cases c.PREEMPT_RT_FULL <;> rfl

theorem kunmap_atomic_lifo_violation_witness :
    ∃ s', __kunmap_atomic (arm true false true)
        (kmap_atomic (arm true false true) (boot_state []) 0xb0000).state 0xfff11000
        = .bug .lifo s' ∧
      (∀ vaddr, get_top_pte s' vaddr =
        get_top_pte (kmap_atomic (arm true false true) (boot_state []) 0xb0000).state vaddr) ∧
      s'.current.kmap_idx =
        (kmap_atomic (arm true false true) (boot_state []) 0xb0000).state.current.kmap_idx :=
  kunmap_atomic_lifo_violation (arm true false true)
    (kmap_atomic (arm true false true) (boot_state []) 0xb0000).state 0xfff11000
    rfl (by decide) (by decide)

/-- C4: what `__kunmap_atomic` flushes.  On a VIVT cache, a call on a fixmap
address (at or above `FIXADDR_START`) issues exactly one flush, of
`PAGE_SIZE` bytes at `kvaddr & PAGE_MASK`; it is the first effect of the call,
so it precedes the write that clears the entry, and when the call returns
that write has followed it.  In every other case no flush is issued. -/
theorem kunmap_atomic_flush (c : Arch) (s : State) (kvaddr : Nat) :
    (c.cache_is_vivt = true ∧ c.FIXADDR_START ≤ kvaddr →
      ∃ post, (__kunmap_atomic c s kvaddr).state.log =
          s.log ++ Event.flush_dcache_area (kvaddr &&& c.PAGE_MASK) c.PAGE_SIZE :: post ∧
        (∀ e ∈ post, e.isFlush = false) ∧
        ((__kunmap_atomic c s kvaddr).why? = none →
          Event.set_top_pte (kvaddr &&& c.PAGE_MASK) 0 ∈ post)) ∧
    (¬ (c.cache_is_vivt = true ∧ c.FIXADDR_START ≤ kvaddr) →
      ∃ evs, (__kunmap_atomic c s kvaddr).state.log = s.log ++ evs ∧
        ∀ e ∈ evs, e.isFlush = false) := by
  constructor
  · rintro ⟨hv, hfix⟩
    unfold __kunmap_atomic
    simp only [ge_iff_le, hfix, if_true, hv, kmap_atomic_idx_pop]
    by_cases hb : (c.DEBUG_HIGHMEM && (kvaddr &&& c.PAGE_MASK) != slot_vaddr c (kmap_atomic_idx s)) = true
    · refine ⟨[], ?_, by simp, ?_⟩
      · cases hrt : c.PREEMPT_RT_FULL <;> simp [hb, Outcome.state, flush_dcache_area]
      · cases hrt : c.PREEMPT_RT_FULL <;> simp [hb, Outcome.why?]
    · by_cases hz : s.current.kmap_idx ≤ 0
      · refine ⟨[.set_top_pte (kvaddr &&& c.PAGE_MASK) 0], ?_, by simp [Event.isFlush], by simp⟩
        cases hrt : c.PREEMPT_RT_FULL <;>
          simp [hb, hz, Outcome.state, flush_dcache_area]
      · refine ⟨[.set_top_pte (kvaddr &&& c.PAGE_MASK) 0, .pagefault_enable], ?_,
          by simp [Event.isFlush], by simp⟩
        cases hrt : c.PREEMPT_RT_FULL <;>
          simp [hb, hz, Outcome.state, flush_dcache_area, pagefault_enable]
  · intro hn
    unfold __kunmap_atomic
    by_cases hfix : c.FIXADDR_START ≤ kvaddr
    · have hv : c.cache_is_vivt = false := by
        cases h : c.cache_is_vivt
        · rfl
        · exact absurd ⟨h, hfix⟩ hn
      simp only [ge_iff_le, hfix, if_true, hv, kmap_atomic_idx_pop]
      by_cases hb : (c.DEBUG_HIGHMEM && (kvaddr &&& c.PAGE_MASK) != slot_vaddr c (kmap_atomic_idx s)) = true
      · refine ⟨[], ?_, by simp⟩
        cases hrt : c.PREEMPT_RT_FULL <;> simp [hb, Outcome.state]
      · by_cases hz : s.current.kmap_idx ≤ 0
        · refine ⟨[.set_top_pte (kvaddr &&& c.PAGE_MASK) 0], ?_, by simp [Event.isFlush]⟩
          cases hrt : c.PREEMPT_RT_FULL <;> simp [hb, hz, Outcome.state]
        · refine ⟨[.set_top_pte (kvaddr &&& c.PAGE_MASK) 0, .pagefault_enable], ?_,
            by simp [Event.isFlush]⟩
          cases hrt : c.PREEMPT_RT_FULL <;> simp [hb, hz, Outcome.state, pagefault_enable]
    · simp only [ge_iff_le, hfix, if_false]
      split
      · exact ⟨[.kunmap_high (pte_page c (s.pkmap_page_table
            (c.PKMAP_NR (kvaddr &&& c.PAGE_MASK)))), .pagefault_enable],
          by simp [Outcome.state, pagefault_enable, kunmap_high], by simp [Event.isFlush]⟩
      · exact ⟨[.pagefault_enable], by simp [Outcome.state, pagefault_enable],
          by simp [Event.isFlush]⟩

/-- C7, as stated, fails: in a debug build, after one `kmap_atomic` of a
highmem page (which took slot 0 of CPU 1, at `0xfff10000`), unmapping the
address of slot 1 halts in the LIFO `BUG_ON`, and the call has issued no
`pagefault_enable`. -/
theorem kunmap_atomic_bug_skips_pagefault_enable :
    (kmap_atomic (arm true false false) (boot_state []) 0xb0000).ret? = some 0xfff10000 ∧
    (__kunmap_atomic (arm true false false)
      (kmap_atomic (arm true false false) (boot_state []) 0xb0000).state 0xfff11000).why?
        = some .lifo ∧
    (__kunmap_atomic (arm true false false)
      (kmap_atomic (arm true false false) (boot_state []) 0xb0000).state 0xfff11000).state.log
        = [.pagefault_disable, .set_top_pte 0xfff10000 0xb000045f] := by
  decide

/-- The fixmap branch of `__kunmap_atomic` (lines 94-109) in one formula: `s1`
is the state after the optional flush and the optional write to
`current->kmap_pte[type]`. -/
theorem kunmap_atomic_fixmap (c : Arch) (s : State) (kvaddr : Nat)
    (hfix : c.FIXADDR_START ≤ kvaddr) :
    ∃ s1 : State, s1.current.kmap_idx = s.current.kmap_idx ∧ s1.top_pte = s.top_pte ∧
      s1.pkmap_vaddr = s.pkmap_vaddr ∧
      s1.log = s.log ++ (if c.cache_is_vivt = true then
        [Event.flush_dcache_area (kvaddr &&& c.PAGE_MASK) c.PAGE_SIZE] else []) ∧
      __kunmap_atomic c s kvaddr =
        if c.DEBUG_HIGHMEM = true ∧
            kvaddr &&& c.PAGE_MASK ≠ slot_vaddr c (s.current.kmap_idx - 1) then
          .bug .lifo s1
        else if s.current.kmap_idx ≤ 0 then
          .bug .idx_pop (set_top_pte s1 (kvaddr &&& c.PAGE_MASK) 0)
        else
          .ok () (pagefault_enable
            (set_kmap_idx (set_top_pte s1 (kvaddr &&& c.PAGE_MASK) 0)
              (s.current.kmap_idx - 1))) := by
  have key : ∀ s1 : State, s1.current.kmap_idx = s.current.kmap_idx →
      (if (c.DEBUG_HIGHMEM && (kvaddr &&& c.PAGE_MASK) != slot_vaddr c (s.current.kmap_idx - 1)) = true
          then Outcome.bug Bug.lifo s1
          else match kmap_atomic_idx_pop (set_top_pte s1 (kvaddr &&& c.PAGE_MASK) 0) with
            | .bug w s => .bug w s
            | .ok _ s => .ok () (pagefault_enable s)) =
      if c.DEBUG_HIGHMEM = true ∧
            kvaddr &&& c.PAGE_MASK ≠ slot_vaddr c (s.current.kmap_idx - 1) then
          .bug .lifo s1
        else if s.current.kmap_idx ≤ 0 then
          .bug .idx_pop (set_top_pte s1 (kvaddr &&& c.PAGE_MASK) 0)
        else
          .ok () (pagefault_enable
            (set_kmap_idx (set_top_pte s1 (kvaddr &&& c.PAGE_MASK) 0)
              (s.current.kmap_idx - 1))) := by
    intro s1 h1
    by_cases hd : c.DEBUG_HIGHMEM = true ∧
        kvaddr &&& c.PAGE_MASK ≠ slot_vaddr c (s.current.kmap_idx - 1)
    · have hd' : (c.DEBUG_HIGHMEM && (kvaddr &&& c.PAGE_MASK) != slot_vaddr c (s.current.kmap_idx - 1))
          = true := by simpa using hd
      rw [if_pos hd, if_pos hd']
    · have hd' : ¬ (c.DEBUG_HIGHMEM && (kvaddr &&& c.PAGE_MASK) != slot_vaddr c (s.current.kmap_idx - 1))
          = true := by simpa using hd
      rw [if_neg hd, if_neg hd']
      by_cases hz : s.current.kmap_idx ≤ 0
      · simp [kmap_atomic_idx_pop, h1, hz]
      · simp [kmap_atomic_idx_pop, h1, hz]
  cases hv : c.cache_is_vivt <;> cases hrt : c.PREEMPT_RT_FULL
  · refine ⟨s, rfl, rfl, rfl, by simp, Eq.trans ?_ (key _ rfl)⟩
    simp [__kunmap_atomic, hfix, hv, hrt, kmap_atomic_idx]
  · refine ⟨set_kmap_pte s (kmap_atomic_idx s) 0, rfl, rfl, rfl, by simp,
      Eq.trans ?_ (key _ rfl)⟩
    simp [__kunmap_atomic, hfix, hv, hrt, kmap_atomic_idx]
  · refine ⟨flush_dcache_area s (kvaddr &&& c.PAGE_MASK) c.PAGE_SIZE,
      rfl, rfl, rfl, by simp [flush_dcache_area], Eq.trans ?_ (key _ rfl)⟩
    simp [__kunmap_atomic, hfix, hv, hrt, kmap_atomic_idx]
  · refine ⟨set_kmap_pte (flush_dcache_area s (kvaddr &&& c.PAGE_MASK) c.PAGE_SIZE)
        (kmap_atomic_idx s) 0,
      rfl, rfl, rfl, by simp [flush_dcache_area], Eq.trans ?_ (key _ rfl)⟩
    simp [__kunmap_atomic, hfix, hv, hrt, kmap_atomic_idx]

/-- Below the fixmap `__kunmap_atomic` always returns; it changes neither the
running context nor any page-table entry, and its effects are an optional
`kunmap_high` followed by `pagefault_enable`. -/
theorem kunmap_atomic_below (c : Arch) (s : State) (kvaddr : Nat)
    (hlt : kvaddr < c.FIXADDR_START) :
    ∃ s' evs, __kunmap_atomic c s kvaddr = .ok () s' ∧ s'.current = s.current ∧
      s'.top_pte = s.top_pte ∧ s'.pkmap_vaddr = s.pkmap_vaddr ∧
      s'.log = s.log ++ evs ++ [.pagefault_enable] ∧ Event.pagefault_enable ∉ evs := by
  have hfix : ¬ c.FIXADDR_START ≤ kvaddr := by omega
  simp only [__kunmap_atomic, ge_iff_le, hfix, if_false]
  split
  · exact ⟨_, [.kunmap_high (pte_page c (s.pkmap_page_table
      (c.PKMAP_NR (kvaddr &&& c.PAGE_MASK))))], rfl, rfl, rfl, rfl,
      by simp [pagefault_enable, kunmap_high], by simp⟩
  · exact ⟨_, [], rfl, rfl, rfl, rfl, by simp [pagefault_enable], by simp⟩

/-- C7, amended: on every path of `__kunmap_atomic` that returns, page faults
are re-enabled exactly once, as the last effect of the call; a call on an
address below the fixmap (low/stable or persistent-mapper address) always
returns; a call on a fixmap address returns exactly when neither the debug
LIFO assertion nor the pop assertion fires; and a call that halts in an
assertion has not re-enabled page faults. -/
theorem kunmap_atomic_pagefault_enable (c : Arch) (s : State) (kvaddr : Nat) :
    (∀ s', __kunmap_atomic c s kvaddr = .ok () s' →
      ∃ evs, s'.log = s.log ++ evs ++ [.pagefault_enable] ∧ Event.pagefault_enable ∉ evs) ∧
    (∀ w s', __kunmap_atomic c s kvaddr = .bug w s' →
      ∃ evs, s'.log = s.log ++ evs ∧ Event.pagefault_enable ∉ evs) ∧
    (kvaddr < c.FIXADDR_START → (__kunmap_atomic c s kvaddr).why? = none) ∧
    (c.FIXADDR_START ≤ kvaddr →
      ((__kunmap_atomic c s kvaddr).why? = none ↔
        ¬ (c.DEBUG_HIGHMEM = true ∧
            kvaddr &&& c.PAGE_MASK ≠ slot_vaddr c (s.current.kmap_idx - 1)) ∧
          0 < s.current.kmap_idx)) := by
  by_cases hfix : c.FIXADDR_START ≤ kvaddr
  · have hlt : ¬ kvaddr < c.FIXADDR_START := by omega
    obtain ⟨s1, -, -, -, hlog, heq⟩ := kunmap_atomic_fixmap c s kvaddr hfix
    have hpre : ∃ evs, s1.log = s.log ++ evs ∧ Event.pagefault_enable ∉ evs := by
      refine ⟨_, hlog, ?_⟩
      split <;> simp
    obtain ⟨evs, hevs, hnot⟩ := hpre
    rw [heq]
    by_cases hd : c.DEBUG_HIGHMEM = true ∧
        kvaddr &&& c.PAGE_MASK ≠ slot_vaddr c (s.current.kmap_idx - 1)
    · rw [if_pos hd]
      refine ⟨fun s' h => by simp at h, ?_, fun h => absurd h hlt, fun _ => ?_⟩
      · intro w s' h
        simp only [Outcome.bug.injEq] at h
        obtain ⟨-, rfl⟩ := h
        exact ⟨evs, hevs, hnot⟩
      · simp [Outcome.why?, hd]
    · rw [if_neg hd]
      by_cases hz : s.current.kmap_idx ≤ 0
      · rw [if_pos hz]
        refine ⟨fun s' h => by simp at h, ?_, fun h => absurd h hlt, fun _ => ?_⟩
        · intro w s' h
          simp only [Outcome.bug.injEq] at h
          obtain ⟨-, rfl⟩ := h
          exact ⟨evs ++ [.set_top_pte (kvaddr &&& c.PAGE_MASK) 0], by simp [hevs],
            by simp [hnot]⟩
        · have : ¬ 0 < s.current.kmap_idx := by omega
          simp [Outcome.why?, this]
      · rw [if_neg hz]
        refine ⟨?_, fun w s' h => by simp at h, fun h => absurd h hlt, fun _ => ?_⟩
        · intro s' h
          simp only [Outcome.ok.injEq, true_and] at h
          subst h
          exact ⟨evs ++ [.set_top_pte (kvaddr &&& c.PAGE_MASK) 0],
            by simp [hevs, pagefault_enable], by simp [hnot]⟩
        · have : 0 < s.current.kmap_idx := by omega
          simp only [Outcome.why?, true_iff]
          exact ⟨hd, this⟩
  · have hlt : kvaddr < c.FIXADDR_START := by omega
    obtain ⟨s', evs, heq, -, -, -, hlog, hnot⟩ := kunmap_atomic_below c s kvaddr hlt
    rw [heq]
    refine ⟨?_, fun w s' h => by simp at h, fun _ => rfl, fun h => absurd h hfix⟩
    intro s'' h
    simp only [Outcome.ok.injEq, true_and] at h
    subst h
    exact ⟨evs, hlog, hnot⟩

/-! ## The slots of the current CPU -/

theorem slot_index_range (c : Arch) (h : FixmapLayout c) (t : Int) (h0 : 0 ≤ t)
    (h1 : t < (c.KM_TYPE_NR : Int)) :
    0 ≤ t + (c.KM_TYPE_NR : Int) * (c.cpu : Int) ∧
      t + (c.KM_TYPE_NR : Int) * (c.cpu : Int) < (c.KM_TYPE_NR : Int) * (c.NR_CPUS : Int) := by
  have hc : (c.KM_TYPE_NR : Int) * ((c.cpu : Int) + 1) ≤ (c.KM_TYPE_NR : Int) * (c.NR_CPUS : Int) := by
    have := Nat.mul_le_mul_left c.KM_TYPE_NR (Nat.succ_le_of_lt h.cpu_lt)
    exact_mod_cast this
  have hp : 0 ≤ (c.KM_TYPE_NR : Int) * (c.cpu : Int) := by positivity
  rw [Int.mul_add, Int.mul_one] at hc
  constructor <;> linarith

theorem slot_inj (c : Arch) (h : FixmapLayout c) (t u : Int) (ht0 : 0 ≤ t)
    (ht1 : t < (c.KM_TYPE_NR : Int)) (hu0 : 0 ≤ u) (hu1 : u < (c.KM_TYPE_NR : Int))
    (heq : slot_vaddr c t = slot_vaddr c u) : t = u := by
  obtain ⟨a, b⟩ := slot_index_range c h t ht0 ht1
  obtain ⟨a', b'⟩ := slot_index_range c h u hu0 hu1
  have := h.inj _ _ a b a' b' heq
  linarith

theorem slot_above (c : Arch) (h : FixmapLayout c) (t : Int) (ht0 : 0 ≤ t)
    (ht1 : t < (c.KM_TYPE_NR : Int)) : c.FIXADDR_START ≤ slot_vaddr c t := by
  obtain ⟨a, b⟩ := slot_index_range c h t ht0 ht1
  exact h.above _ a b

theorem slot_aligned (c : Arch) (h : FixmapLayout c) (t : Int) (ht0 : 0 ≤ t)
    (ht1 : t < (c.KM_TYPE_NR : Int)) : slot_vaddr c t &&& c.PAGE_MASK = slot_vaddr c t := by
  obtain ⟨a, b⟩ := slot_index_range c h t ht0 ht1
  exact h.aligned _ a b

/-- The concrete board satisfies the layout assumptions. -/
theorem arm_layout (debug rt vivt : Bool) : FixmapLayout (arm debug rt vivt) where
  cpu_lt := by simp [arm]
  inj := by
    intro x y hx0 hx1 hy0 hy1 h
    simp only [arm] at hx1 hy1 h
    omega
  above := by
    intro x hx0 hx1
    simp only [arm] at hx1 ⊢
    omega
  aligned := by
    intro x hx0 hx1
    simp only [arm] at hx1
    have hx1' : x < 32 := by omega
    simp only [arm, Arch.PAGE_MASK, Arch.PAGE_SIZE]
    interval_cases x <;> decide

theorem arm2_layout (debug rt vivt : Bool) : FixmapLayout (arm2 debug rt vivt) where
  cpu_lt := by simp [arm2, arm]
  inj := by
    intro x y hx0 hx1 hy0 hy1 h
    simp only [arm2, arm] at hx1 hy1 h
    omega
  above := by
    intro x hx0 hx1
    simp only [arm2, arm] at hx1 ⊢
    omega
  aligned := by
    intro x hx0 hx1
    simp only [arm2, arm] at hx1
    have hx1' : x < 4 := by omega
    simp only [arm2, arm, Arch.PAGE_MASK, Arch.PAGE_SIZE]
    interval_cases x <;> decide

/-! ## The map path in one formula -/

/-- `kmap_atomic_slot` when a slot is left and, in a debug build, free: it
returns the address of slot `kmap_idx`, pushes the index, writes the entry,
and under `CONFIG_PREEMPT_RT_FULL` records it in the task. -/
theorem kmap_atomic_slot_ok (c : Arch) (s : State) (pte : Pte)
    (hroom : s.current.kmap_idx + 1 ≤ (c.KM_TYPE_NR : Int))
    (hfree : c.DEBUG_HIGHMEM = true → get_top_pte s (slot_vaddr c s.current.kmap_idx) = 0) :
    ∃ s', kmap_atomic_slot c s pte = .ok (slot_vaddr c s.current.kmap_idx) s' ∧
      s'.current.kmap_idx = s.current.kmap_idx + 1 ∧
      s'.top_pte = Function.update s.top_pte (slot_vaddr c s.current.kmap_idx) pte ∧
      s'.pkmap_vaddr = s.pkmap_vaddr ∧
      s'.log = s.log ++ [.set_top_pte (slot_vaddr c s.current.kmap_idx) pte] ∧
      s'.current.kmap_pte = (if c.PREEMPT_RT_FULL = true then
        Function.update s.current.kmap_pte s.current.kmap_idx pte else s.current.kmap_pte) := by
  have hroom' : ¬ s.current.kmap_idx + 1 > (c.KM_TYPE_NR : Int) := by omega
  have hchk : ¬ (c.DEBUG_HIGHMEM && !pte_none (get_top_pte
      (set_kmap_idx s (s.current.kmap_idx + 1)) (slot_vaddr c s.current.kmap_idx))) = true := by
    intro h
    simp only [Bool.and_eq_true, Bool.not_eq_true', pte_none, beq_eq_false_iff_ne] at h
    exact h.2 (hfree h.1)
  cases hrt : c.PREEMPT_RT_FULL
  · refine ⟨set_top_pte (set_kmap_idx s (s.current.kmap_idx + 1))
      (slot_vaddr c s.current.kmap_idx) pte, ?_, rfl, rfl, rfl, rfl, by simp⟩
    simp only [kmap_atomic_slot, kmap_atomic_idx_push, hroom', if_false, hchk, hrt]
    rfl
  · refine ⟨set_top_pte (set_kmap_pte (set_kmap_idx s (s.current.kmap_idx + 1))
      s.current.kmap_idx pte) (slot_vaddr c s.current.kmap_idx) pte, ?_, rfl, rfl, rfl, rfl,
      by simp⟩
    simp only [kmap_atomic_slot, kmap_atomic_idx_push, hroom', if_false, hchk, hrt]
    rfl

/-- `kmap_atomic_slot` with every slot of the CPU in use halts in the push;
nothing has been written. -/
theorem kmap_atomic_slot_exhausted (c : Arch) (s : State) (pte : Pte)
    (hfull : (c.KM_TYPE_NR : Int) < s.current.kmap_idx + 1) :
    kmap_atomic_slot c s pte = .bug .idx_push s := by
  have h : s.current.kmap_idx + 1 > (c.KM_TYPE_NR : Int) := hfull
  simp [kmap_atomic_slot, kmap_atomic_idx_push, h]

/-- `kmap_atomic` on a highmem page whose persistent mapping is reused returns
that address after `pagefault_disable` and `kmap_high_get`, and touches
neither the nesting index nor the page table. -/
theorem kmap_atomic_reuse (c : Arch) (s : State) (page : Page)
    (hhigh : c.PageHighMem page = true) (hhit : ¬ NoPersistentMapping c s page) :
    kmap_atomic c s page =
      .ok (s.pkmap_vaddr page) (emit (pagefault_disable s) (.kmap_high_get page)) := by
  simp only [NoPersistentMapping, not_or, not_and, Bool.not_eq_false] at hhit
  obtain ⟨h1, h2⟩ := hhit
  have hc : ¬ (c.DEBUG_HIGHMEM && !c.cache_is_vivt) = true := by
    intro h
    simp only [Bool.and_eq_true, Bool.not_eq_true'] at h
    have := h1 h.1
    rw [h.2] at this
    exact Bool.false_ne_true this
  simp [kmap_atomic, hhigh, hc, kmap_high_get, pagefault_disable, h2]

/-- `kmap_atomic` on a highmem page with no persistent mapping to reuse runs
the slot path from a state `s0` that differs from `s` only in its log, which
has gained no page-table write. -/
theorem kmap_atomic_takes_slot (c : Arch) (s : State) (page : Page)
    (hhigh : c.PageHighMem page = true) (hmiss : NoPersistentMapping c s page) :
    ∃ s0 evs, s0.current = s.current ∧ s0.top_pte = s.top_pte ∧
      s0.pkmap_vaddr = s.pkmap_vaddr ∧ s0.log = s.log ++ evs ∧
      (∀ a p, Event.set_top_pte a p ∉ evs) ∧
      kmap_atomic c s page = kmap_atomic_slot c s0 (mk_pte c page) := by
  by_cases hc : (c.DEBUG_HIGHMEM && !c.cache_is_vivt) = true
  · refine ⟨pagefault_disable s, [.pagefault_disable], rfl, rfl, rfl, rfl, by simp, ?_⟩
    simp [kmap_atomic, hhigh, hc]
  · have hz : s.pkmap_vaddr page = 0 := by
      rcases hmiss with ⟨h1, h2⟩ | h
      · simp [h1, h2] at hc
      · exact h
    refine ⟨emit (pagefault_disable s) (.kmap_high_get page),
      [.pagefault_disable, .kmap_high_get page], rfl, rfl, rfl,
      by simp [pagefault_disable], by simp, ?_⟩
    simp [kmap_atomic, hhigh, hc, kmap_high_get, pagefault_disable, hz]

/-- Unmapping the address of the top slot returns, clears that slot's entry and
pops the index. -/
theorem kunmap_atomic_top (c : Arch) (hl : FixmapLayout c) (s : State)
    (h1 : 1 ≤ s.current.kmap_idx) (h2 : s.current.kmap_idx ≤ (c.KM_TYPE_NR : Int)) :
    ∃ s', __kunmap_atomic c s (slot_vaddr c (s.current.kmap_idx - 1)) = .ok () s' ∧
      s'.current.kmap_idx = s.current.kmap_idx - 1 ∧
      s'.top_pte = Function.update s.top_pte (slot_vaddr c (s.current.kmap_idx - 1)) 0 ∧
      s'.pkmap_vaddr = s.pkmap_vaddr := by
  have ha := slot_aligned c hl (s.current.kmap_idx - 1) (by omega) (by omega)
  have hb := slot_above c hl (s.current.kmap_idx - 1) (by omega) (by omega)
  obtain ⟨s1, hidx, htop, hpk, -, heq⟩ := kunmap_atomic_fixmap c s _ hb
  rw [ha] at heq
  have hz : ¬ s.current.kmap_idx ≤ 0 := by omega
  rw [if_neg (by simp), if_neg hz] at heq
  exact ⟨_, heq, by simp [pagefault_enable], by simp [pagefault_enable, htop],
    by simp [pagefault_enable, hpk]⟩

/-- `kmap_atomic` on a highmem page whose persistent mapping is reused, at any
nesting depth: the call returns the persistent address, and the running
context, the page table and the persistent mapper's table are as before. -/
theorem kmap_atomic_reuse_keeps (c : Arch) (s : State) (page : Page)
    (hhigh : c.PageHighMem page = true) (hhit : ¬ NoPersistentMapping c s page) :
    ∃ s', kmap_atomic c s page = .ok (s.pkmap_vaddr page) s' ∧ s'.current = s.current ∧
      s'.top_pte = s.top_pte ∧ s'.pkmap_vaddr = s.pkmap_vaddr :=
  ⟨_, kmap_atomic_reuse c s page hhigh hhit, rfl, rfl, rfl⟩

/-- C6, as stated, fails: a highmem page that the persistent mapper holds is
mapped twice in a non-debug build; both calls return the persistent address
and the nesting index stays 0. -/
theorem kmap_atomic_twice_reuses_persistent_address :
    (arm false false false).PageHighMem 0xb0000 = true ∧
    (kmap_atomic (arm false false false) (boot_state [(0xb0000, 0xbfe05000)]) 0xb0000).ret?
      = some 0xbfe05000 ∧
    (kmap_atomic (arm false false false)
      (kmap_atomic (arm false false false) (boot_state [(0xb0000, 0xbfe05000)]) 0xb0000).state
      0xb0000).ret? = some 0xbfe05000 ∧
    (kmap_atomic (arm false false false)
      (kmap_atomic (arm false false false) (boot_state [(0xb0000, 0xbfe05000)]) 0xb0000).state
      0xb0000).state.current.kmap_idx = 0 := by
  decide

/-- C6, amended: two `kmap_atomic` calls on one highmem page with no unmap in
between.  When the page has no persistent mapping to reuse (`kmap_high_get`
finds none, or is bypassed in a debug build on a non-VIVT cache), in a state
with two slots left and the slots from the nesting index up free, both calls
return; the nesting index grows by 2, the addresses are those of two
different slots, and both slots hold the page's entry
`mk_pte(page, kmap_prot)`.  When the persistent mapper holds the page and
`kmap_high_get` is not bypassed, both calls return the persistent address, at
any depth; the nesting index and every page-table entry are as before. -/
theorem kmap_atomic_twice_takes_two_slots (c : Arch) (hl : FixmapLayout c) (s : State)
    (page : Page) (hhigh : c.PageHighMem page = true) :
    (NoPersistentMapping c s page → 0 ≤ s.current.kmap_idx →
      s.current.kmap_idx + 2 ≤ (c.KM_TYPE_NR : Int) →
      SlotsFreeFrom c s s.current.kmap_idx →
      ∃ s1 s2, kmap_atomic c s page = .ok (slot_vaddr c s.current.kmap_idx) s1 ∧
        kmap_atomic c s1 page = .ok (slot_vaddr c (s.current.kmap_idx + 1)) s2 ∧
        s2.current.kmap_idx = s.current.kmap_idx + 2 ∧
        slot_vaddr c s.current.kmap_idx ≠ slot_vaddr c (s.current.kmap_idx + 1) ∧
        get_top_pte s2 (slot_vaddr c s.current.kmap_idx) = mk_pte c page ∧
        get_top_pte s2 (slot_vaddr c (s.current.kmap_idx + 1)) = mk_pte c page) ∧
    (¬ NoPersistentMapping c s page →
      ∃ s1 s2, kmap_atomic c s page = .ok (s.pkmap_vaddr page) s1 ∧
        kmap_atomic c s1 page = .ok (s.pkmap_vaddr page) s2 ∧
        s2.current.kmap_idx = s.current.kmap_idx ∧
        (∀ a, get_top_pte s2 a = get_top_pte s a)) := by
  constructor
  · intro hmiss h0 hroom hfree
    have hne : slot_vaddr c s.current.kmap_idx ≠ slot_vaddr c (s.current.kmap_idx + 1) := by
      intro h
      have := slot_inj c hl _ _ h0 (by omega) (by omega) (by omega) h
      omega
    obtain ⟨sa, evs, hcur, htop, hpk, -, -, heq⟩ := kmap_atomic_takes_slot c s page hhigh hmiss
    obtain ⟨s1, hr1, hi1, ht1, hp1, -, -⟩ := kmap_atomic_slot_ok c sa (mk_pte c page)
      (by rw [hcur]; omega)
      (fun _ => by rw [hcur]; simpa [get_top_pte, htop] using hfree _ (le_refl _) (by omega))
    rw [hcur] at hr1 hi1 ht1
    have hmiss1 : NoPersistentMapping c s1 page := by
      rcases hmiss with h | h
      · exact Or.inl h
      · exact Or.inr (by rw [hp1, hpk]; exact h)
    obtain ⟨sb, evs', hcur', htop', hpk', -, -, heq'⟩ :=
      kmap_atomic_takes_slot c s1 page hhigh hmiss1
    have hidx' : sb.current.kmap_idx = s.current.kmap_idx + 1 := by rw [hcur', hi1]
    obtain ⟨s2, hr2, hi2, ht2, -, -, -⟩ := kmap_atomic_slot_ok c sb (mk_pte c page)
      (by rw [hidx']; omega)
      (fun _ => by
        rw [hidx']
        have := hfree (s.current.kmap_idx + 1) (by omega) (by omega)
        simp only [get_top_pte] at this ⊢
        rw [htop', ht1, htop, Function.update_noteq (Ne.symm hne)]
        exact this)
    rw [hidx'] at hr2 hi2 ht2
    refine ⟨s1, s2, heq.trans hr1, heq'.trans hr2, by omega, hne, ?_, ?_⟩
    · simp only [get_top_pte]
      rw [ht2, htop', ht1, htop, Function.update_noteq hne, Function.update_same]
    · simp only [get_top_pte]
      rw [ht2, Function.update_same]
  · intro hhit
    obtain ⟨s1, hr1, hc1, ht1, hp1⟩ := kmap_atomic_reuse_keeps c s page hhigh hhit
    have hhit1 : ¬ NoPersistentMapping c s1 page := by
      intro h
      rcases h with h | h
      · exact hhit (Or.inl h)
      · exact hhit (Or.inr (by rw [← hp1]; exact h))
    obtain ⟨s2, hr2, hc2, ht2, -⟩ := kmap_atomic_reuse_keeps c s1 page hhigh hhit1
    rw [hp1] at hr2
    refine ⟨s1, s2, hr1, hr2, by rw [hc2, hc1], fun a => ?_⟩
    simp only [get_top_pte, ht2, ht1]

theorem kmap_atomic_twice_takes_two_slots_witness :
    (∃ s1 s2, kmap_atomic (arm true true true) (boot_state []) 0xb0000 =
        .ok (slot_vaddr (arm true true true) (boot_state []).current.kmap_idx) s1 ∧
      kmap_atomic (arm true true true) s1 0xb0000 =
        .ok (slot_vaddr (arm true true true) ((boot_state []).current.kmap_idx + 1)) s2 ∧
      s2.current.kmap_idx = (boot_state []).current.kmap_idx + 2 ∧
      slot_vaddr (arm true true true) (boot_state []).current.kmap_idx ≠
        slot_vaddr (arm true true true) ((boot_state []).current.kmap_idx + 1) ∧
      get_top_pte s2 (slot_vaddr (arm true true true) (boot_state []).current.kmap_idx)
        = mk_pte (arm true true true) 0xb0000 ∧
      get_top_pte s2 (slot_vaddr (arm true true true) ((boot_state []).current.kmap_idx + 1))
        = mk_pte (arm true true true) 0xb0000) ∧
    (∃ s1 s2, kmap_atomic (arm false true true) (boot_state [(0xb0000, 0xbfe05000)]) 0xb0000 =
        .ok ((boot_state [(0xb0000, 0xbfe05000)]).pkmap_vaddr 0xb0000) s1 ∧
      kmap_atomic (arm false true true) s1 0xb0000 =
        .ok ((boot_state [(0xb0000, 0xbfe05000)]).pkmap_vaddr 0xb0000) s2 ∧
      s2.current.kmap_idx = (boot_state [(0xb0000, 0xbfe05000)]).current.kmap_idx ∧
      (∀ a, get_top_pte s2 a = get_top_pte (boot_state [(0xb0000, 0xbfe05000)]) a)) :=
  ⟨(kmap_atomic_twice_takes_two_slots (arm true true true) (arm_layout true true true)
      (boot_state []) 0xb0000 (by decide)).1
      (Or.inr rfl) (by decide) (by decide) (fun _ _ _ => rfl),
   (kmap_atomic_twice_takes_two_slots (arm false true true) (arm_layout false true true)
      (boot_state [(0xb0000, 0xbfe05000)]) 0xb0000 (by decide)).2
      (by
        intro h
        rcases h with ⟨h1, -⟩ | h
        · exact absurd h1 (by decide)
        · exact absurd h (by decide))⟩

/-- The three ways `kmap_atomic_slot` can end. -/
theorem kmap_atomic_slot_cases (c : Arch) (s : State) (pte : Pte) :
    ((c.KM_TYPE_NR : Int) < s.current.kmap_idx + 1 ∧
      kmap_atomic_slot c s pte = .bug .idx_push s) ∨
    (s.current.kmap_idx + 1 ≤ (c.KM_TYPE_NR : Int) ∧ c.DEBUG_HIGHMEM = true ∧
      get_top_pte s (slot_vaddr c s.current.kmap_idx) ≠ 0 ∧
      kmap_atomic_slot c s pte =
        .bug .slot_not_free (set_kmap_idx s (s.current.kmap_idx + 1))) ∨
    (s.current.kmap_idx + 1 ≤ (c.KM_TYPE_NR : Int) ∧
      (c.DEBUG_HIGHMEM = true → get_top_pte s (slot_vaddr c s.current.kmap_idx) = 0) ∧
      ∃ s', kmap_atomic_slot c s pte = .ok (slot_vaddr c s.current.kmap_idx) s' ∧
        s'.current.kmap_idx = s.current.kmap_idx + 1 ∧
        s'.top_pte = Function.update s.top_pte (slot_vaddr c s.current.kmap_idx) pte ∧
        s'.pkmap_vaddr = s.pkmap_vaddr) := by
  by_cases hfull : (c.KM_TYPE_NR : Int) < s.current.kmap_idx + 1
  · exact Or.inl ⟨hfull, kmap_atomic_slot_exhausted c s pte hfull⟩
  · have hroom : s.current.kmap_idx + 1 ≤ (c.KM_TYPE_NR : Int) := by omega
    by_cases hchk : c.DEBUG_HIGHMEM = true ∧
        get_top_pte s (slot_vaddr c s.current.kmap_idx) ≠ 0
    · refine Or.inr (Or.inl ⟨hroom, hchk.1, hchk.2, ?_⟩)
      have hroom' : ¬ s.current.kmap_idx + 1 > (c.KM_TYPE_NR : Int) := by omega
      have hb : (c.DEBUG_HIGHMEM && !pte_none (get_top_pte
          (set_kmap_idx s (s.current.kmap_idx + 1)) (slot_vaddr c s.current.kmap_idx))) = true := by
        simp only [Bool.and_eq_true, Bool.not_eq_true', pte_none, beq_eq_false_iff_ne]
        exact ⟨hchk.1, hchk.2⟩
      simp only [kmap_atomic_slot, kmap_atomic_idx_push, hroom', if_false, hb, if_true]
    · have hfree : c.DEBUG_HIGHMEM = true →
          get_top_pte s (slot_vaddr c s.current.kmap_idx) = 0 := by
        intro hd
        by_contra hne
        exact hchk ⟨hd, hne⟩
      obtain ⟨s', h1, h2, h3, h4, -, -⟩ := kmap_atomic_slot_ok c s pte hroom hfree
      exact Or.inr (Or.inr ⟨hroom, hfree, s', h1, h2, h3, h4⟩)

/-- The only page-table entry `kmap_atomic_slot` can change is that of slot
`kmap_idx`, and only when that index is below `KM_TYPE_NR`. -/
theorem kmap_atomic_slot_writes (c : Arch) (s : State) (pte : Pte) (a : Nat)
    (h : get_top_pte (kmap_atomic_slot c s pte).state a ≠ get_top_pte s a) :
    a = slot_vaddr c s.current.kmap_idx ∧ s.current.kmap_idx < (c.KM_TYPE_NR : Int) := by
  rcases kmap_atomic_slot_cases c s pte with ⟨-, heq⟩ | ⟨-, -, -, heq⟩ | ⟨hroom, -, s', heq, -, htop, -⟩
  · rw [heq] at h
    exact absurd rfl h
  · rw [heq] at h
    exact absurd rfl h
  · rw [heq] at h
    simp only [Outcome.state, get_top_pte, htop] at h
    by_cases ha : a = slot_vaddr c s.current.kmap_idx
    · exact ⟨ha, by omega⟩
    · rw [Function.update_noteq ha] at h
      exact absurd rfl h

/-- The only page-table entry `kmap_atomic` can change is that of slot
`kmap_idx`, and only when that index is below `KM_TYPE_NR`. -/
theorem kmap_atomic_writes (c : Arch) (s : State) (page : Page) (a : Nat)
    (h : get_top_pte (kmap_atomic c s page).state a ≠ get_top_pte s a) :
    a = slot_vaddr c s.current.kmap_idx ∧ s.current.kmap_idx < (c.KM_TYPE_NR : Int) := by
  cases hhigh : c.PageHighMem page
  · rw [kmap_atomic_low_eq c s page hhigh] at h
    exact absurd rfl h
  · by_cases hmiss : NoPersistentMapping c s page
    · obtain ⟨s0, evs, hcur, htop, -, -, -, heq⟩ := kmap_atomic_takes_slot c s page hhigh hmiss
      rw [heq] at h
      have h' : get_top_pte (kmap_atomic_slot c s0 (mk_pte c page)).state a ≠ get_top_pte s0 a := by
        simpa [get_top_pte, htop] using h
      simpa [hcur] using kmap_atomic_slot_writes c s0 _ a h'
    · rw [kmap_atomic_reuse c s page hhigh hmiss] at h
      exact absurd rfl h

/-- The only page-table entry `kmap_atomic_pfn` can change is that of slot
`kmap_idx`, and only when that index is below `KM_TYPE_NR`. -/
theorem kmap_atomic_pfn_writes (c : Arch) (s : State) (pfn : Nat) (a : Nat)
    (h : get_top_pte (kmap_atomic_pfn c s pfn).state a ≠ get_top_pte s a) :
    a = slot_vaddr c s.current.kmap_idx ∧ s.current.kmap_idx < (c.KM_TYPE_NR : Int) :=
  kmap_atomic_slot_writes c (pagefault_disable s) (c.pfn_pte pfn) a h

/-- `NoPersistentMapping` depends on the state only through the persistent
mapper's table. -/
theorem NoPersistentMapping.same_pkmap {c : Arch} {s s' : State} {page : Page}
    (h : NoPersistentMapping c s page) (hpk : s'.pkmap_vaddr = s.pkmap_vaddr) :
    NoPersistentMapping c s' page := by
  rcases h with h | h
  · exact Or.inl h
  · exact Or.inr (by rw [hpk]; exact h)

/-- `kmap_atomic` on a highmem page with no persistent mapping to reuse, with a
slot left and the next slot free: the call returns the address of slot
`kmap_idx`, pushes the index and writes the page's entry there. -/
theorem kmap_atomic_highmem_ok (c : Arch) (s : State) (page : Page)
    (hhigh : c.PageHighMem page = true) (hmiss : NoPersistentMapping c s page)
    (hroom : s.current.kmap_idx + 1 ≤ (c.KM_TYPE_NR : Int))
    (hfree : c.DEBUG_HIGHMEM = true → get_top_pte s (slot_vaddr c s.current.kmap_idx) = 0) :
    ∃ s', kmap_atomic c s page = .ok (slot_vaddr c s.current.kmap_idx) s' ∧
      s'.current.kmap_idx = s.current.kmap_idx + 1 ∧
      s'.top_pte = Function.update s.top_pte (slot_vaddr c s.current.kmap_idx) (mk_pte c page) ∧
      s'.pkmap_vaddr = s.pkmap_vaddr ∧
      s'.current.kmap_pte = (if c.PREEMPT_RT_FULL = true then
        Function.update s.current.kmap_pte s.current.kmap_idx (mk_pte c page)
        else s.current.kmap_pte) := by
  obtain ⟨s0, evs, hcur, htop, hpk, -, -, heq⟩ := kmap_atomic_takes_slot c s page hhigh hmiss
  obtain ⟨s', hr, hi, ht, hp, -, hk⟩ := kmap_atomic_slot_ok c s0 (mk_pte c page)
    (by rw [hcur]; exact hroom) (by rw [hcur]; simpa [get_top_pte, htop] using hfree)
  rw [hcur] at hr hi ht hk
  exact ⟨s', heq.trans hr, hi, by rw [ht, htop], by rw [hp, hpk], hk⟩

/-- C10, as stated, fails: with two slots per CPU in a non-debug build, a
highmem page A that the persistent mapper holds does not bind slot 0 (the call
returns the persistent address and the slot stays empty), and the third
`kmap_atomic` of the nesting is not rejected: it returns the address of
slot 1. -/
theorem kmap_atomic_third_call_not_rejected :
    (kmap_atomic (arm2 false false false) (boot_state [(0xb0000, 0xbfe05000)]) 0xb0000).ret?
      = some 0xbfe05000 ∧
    get_top_pte
      (kmap_atomic (arm2 false false false) (boot_state [(0xb0000, 0xbfe05000)]) 0xb0000).state
      (slot_vaddr (arm2 false false false) 0) = 0 ∧
    (kmap_atomic (arm2 false false false)
      (kmap_atomic (arm2 false false false)
        (kmap_atomic (arm2 false false false) (boot_state [(0xb0000, 0xbfe05000)]) 0xb0000).state
        0xb0001).state 0xb0002).ret? = some (slot_vaddr (arm2 false false false) 1) := by
  decide

/-- C10, amended.  With `KM_TYPE_NR = 2`, nesting index 0, both slots free and
three highmem pages that have no persistent mapping to reuse: `kmap_atomic` of
A returns slot 0 and binds it, `kmap_atomic` of B returns slot 1 and binds it,
a third `kmap_atomic` halts in the push (exhaustion) without changing any
page-table entry, and after unmapping B then A both slots are free and the
index is 0.  In general the only entry a `kmap_atomic` or `kmap_atomic_pfn`
call can change is that of the slot at the nesting index, which is below
`KM_TYPE_NR`; the entry of any fixmap index beyond the current CPU's slots is
left as it was.  A highmem page that the persistent mapper holds, where
`kmap_high_get` is not bypassed, is never rejected: at any depth, the full one
included, `kmap_atomic` returns its persistent address and leaves the nesting
index and every page-table entry as they were. -/
theorem kmap_atomic_exhaustion (c : Arch) (hl : FixmapLayout c) :
    (c.KM_TYPE_NR = 2 → ∀ (s : State) (A B C : Page),
      s.current.kmap_idx = 0 → SlotsFreeFrom c s 0 →
      c.PageHighMem A = true → c.PageHighMem B = true → c.PageHighMem C = true →
      NoPersistentMapping c s A → NoPersistentMapping c s B → NoPersistentMapping c s C →
      ∃ s1 s2 sb s3 s4,
        kmap_atomic c s A = .ok (slot_vaddr c 0) s1 ∧
        get_top_pte s1 (slot_vaddr c 0) = mk_pte c A ∧
        kmap_atomic c s1 B = .ok (slot_vaddr c 1) s2 ∧
        get_top_pte s2 (slot_vaddr c 1) = mk_pte c B ∧
        get_top_pte s2 (slot_vaddr c 0) = mk_pte c A ∧
        kmap_atomic c s2 C = .bug .idx_push sb ∧
        (∀ a, get_top_pte sb a = get_top_pte s2 a) ∧
        __kunmap_atomic c s2 (slot_vaddr c 1) = .ok () s3 ∧
        __kunmap_atomic c s3 (slot_vaddr c 0) = .ok () s4 ∧
        get_top_pte s4 (slot_vaddr c 0) = 0 ∧ get_top_pte s4 (slot_vaddr c 1) = 0 ∧
        s4.current.kmap_idx = 0) ∧
    (∀ (s : State) (a : Nat),
      (∀ page, get_top_pte (kmap_atomic c s page).state a ≠ get_top_pte s a →
        a = slot_vaddr c s.current.kmap_idx ∧ s.current.kmap_idx < (c.KM_TYPE_NR : Int)) ∧
      (∀ pfn, get_top_pte (kmap_atomic_pfn c s pfn).state a ≠ get_top_pte s a →
        a = slot_vaddr c s.current.kmap_idx ∧ s.current.kmap_idx < (c.KM_TYPE_NR : Int))) ∧
    (∀ (s : State) (k : Int), 0 ≤ s.current.kmap_idx → (c.KM_TYPE_NR : Int) ≤ k →
      k + (c.KM_TYPE_NR : Int) * (c.cpu : Int) < (c.KM_TYPE_NR : Int) * (c.NR_CPUS : Int) →
      (∀ page, get_top_pte (kmap_atomic c s page).state (slot_vaddr c k)
        = get_top_pte s (slot_vaddr c k)) ∧
      (∀ pfn, get_top_pte (kmap_atomic_pfn c s pfn).state (slot_vaddr c k)
        = get_top_pte s (slot_vaddr c k))) ∧
    (∀ (s : State) (page : Page), c.PageHighMem page = true →
      ¬ NoPersistentMapping c s page →
      ∃ s', kmap_atomic c s page = .ok (s.pkmap_vaddr page) s' ∧
        s'.current.kmap_idx = s.current.kmap_idx ∧
        (∀ a, get_top_pte s' a = get_top_pte s a)) := by
  refine ⟨?_, fun s a => ⟨fun page => kmap_atomic_writes c s page a,
    fun pfn => kmap_atomic_pfn_writes c s pfn a⟩, ?_, fun s page hhigh hhit => ?_⟩
  rotate_left 2
  · obtain ⟨s', hr, hc, ht, -⟩ := kmap_atomic_reuse_keeps c s page hhigh hhit
    exact ⟨s', hr, by rw [hc], fun a => by simp only [get_top_pte, ht]⟩
  · intro hKM s A B C hidx hfree hA hB hC mA mB mC
    have hKM' : (c.KM_TYPE_NR : Int) = 2 := by exact_mod_cast hKM
    have hne : slot_vaddr c 0 ≠ slot_vaddr c 1 := by
      intro h
      have := slot_inj c hl 0 1 (by omega) (by omega) (by omega) (by omega) h
      omega
    -- first map
    obtain ⟨s1, hr1, hi1, ht1, hp1, -⟩ := kmap_atomic_highmem_ok c s A hA mA
      (by omega) (fun _ => by rw [hidx]; exact hfree 0 (le_refl _) (by omega))
    rw [hidx] at hr1 hi1 ht1
    -- second map
    have hi1' : s1.current.kmap_idx = 1 := by omega
    obtain ⟨s2, hr2, hi2, ht2, hp2, -⟩ := kmap_atomic_highmem_ok c s1 B hB
      (mB.same_pkmap hp1) (by omega) (fun _ => by
        rw [hi1']
        have := hfree 1 (by omega) (by omega)
        simp only [get_top_pte] at this ⊢
        rw [ht1, Function.update_noteq (Ne.symm hne)]
        exact this)
    rw [hi1'] at hr2 hi2 ht2
    have hi2' : s2.current.kmap_idx = 2 := by omega
    -- third map
    obtain ⟨s0, evs, hcur0, htop0, -, -, -, heq0⟩ := kmap_atomic_takes_slot c s2 C hC
      ((mC.same_pkmap hp1).same_pkmap hp2)
    have hb := kmap_atomic_slot_exhausted c s0 (mk_pte c C) (by rw [hcur0]; omega)
    -- unmaps
    obtain ⟨s3, hu3, hi3, ht3, -⟩ := kunmap_atomic_top c hl s2 (by omega) (by omega)
    have e1 : s2.current.kmap_idx - 1 = 1 := by omega
    rw [e1] at hu3 hi3 ht3
    obtain ⟨s4, hu4, hi4, ht4, -⟩ := kunmap_atomic_top c hl s3 (by omega) (by omega)
    have e0 : s3.current.kmap_idx - 1 = 0 := by omega
    rw [e0] at hu4 hi4 ht4
    refine ⟨s1, s2, s0, s3, s4, hr1, ?_, hr2, ?_, ?_, heq0.trans hb, ?_, hu3, hu4, ?_, ?_, hi4⟩
    · simp [get_top_pte, ht1]
    · simp [get_top_pte, ht2]
    · simp only [get_top_pte]
      rw [ht2, Function.update_noteq hne, ht1, Function.update_same]
    · intro a
      simp [get_top_pte, htop0]
    · simp [get_top_pte, ht4]
    · simp only [get_top_pte]
      rw [ht4, Function.update_noteq (Ne.symm hne), ht3, Function.update_same]
  · intro s k h0 hk hk'
    have hp : 0 ≤ (c.KM_TYPE_NR : Int) * (c.cpu : Int) := by positivity
    have hdiff : s.current.kmap_idx < (c.KM_TYPE_NR : Int) →
        slot_vaddr c k ≠ slot_vaddr c s.current.kmap_idx := by
      intro hlt h
      obtain ⟨a, b⟩ := slot_index_range c hl s.current.kmap_idx h0 hlt
      have := hl.inj _ _ (by linarith) hk' a b h
      omega
    constructor
    · intro page
      by_contra h
      obtain ⟨h1, h2⟩ := kmap_atomic_writes c s page _ h
      exact hdiff h2 h1
    · intro pfn
      by_contra h
      obtain ⟨h1, h2⟩ := kmap_atomic_pfn_writes c s pfn _ h
      exact hdiff h2 h1

theorem kmap_atomic_exhaustion_witness :
    (∃ s1 s2 sb s3 s4,
      kmap_atomic (arm2 true false true) (boot_state []) 0xb0000
        = .ok (slot_vaddr (arm2 true false true) 0) s1 ∧
      get_top_pte s1 (slot_vaddr (arm2 true false true) 0)
        = mk_pte (arm2 true false true) 0xb0000 ∧
      kmap_atomic (arm2 true false true) s1 0xb0001
        = .ok (slot_vaddr (arm2 true false true) 1) s2 ∧
      get_top_pte s2 (slot_vaddr (arm2 true false true) 1)
        = mk_pte (arm2 true false true) 0xb0001 ∧
      get_top_pte s2 (slot_vaddr (arm2 true false true) 0)
        = mk_pte (arm2 true false true) 0xb0000 ∧
      kmap_atomic (arm2 true false true) s2 0xb0002 = .bug .idx_push sb ∧
      (∀ a, get_top_pte sb a = get_top_pte s2 a) ∧
      __kunmap_atomic (arm2 true false true) s2 (slot_vaddr (arm2 true false true) 1)
        = .ok () s3 ∧
      __kunmap_atomic (arm2 true false true) s3 (slot_vaddr (arm2 true false true) 0)
        = .ok () s4 ∧
      get_top_pte s4 (slot_vaddr (arm2 true false true) 0) = 0 ∧
      get_top_pte s4 (slot_vaddr (arm2 true false true) 1) = 0 ∧
      s4.current.kmap_idx = 0) ∧
    ((kmap_atomic (arm2 false false false)
      (kmap_atomic (arm2 false false false) (boot_state [(0xb0000, 0xbfe05000)])
        0xb0001).state 0xb0002).state.current.kmap_idx = 2 ∧
     ∃ s', kmap_atomic (arm2 false false false)
        (kmap_atomic (arm2 false false false)
          (kmap_atomic (arm2 false false false) (boot_state [(0xb0000, 0xbfe05000)])
            0xb0001).state 0xb0002).state 0xb0000
          = .ok ((kmap_atomic (arm2 false false false)
            (kmap_atomic (arm2 false false false) (boot_state [(0xb0000, 0xbfe05000)])
              0xb0001).state 0xb0002).state.pkmap_vaddr 0xb0000) s' ∧
      s'.current.kmap_idx =
        (kmap_atomic (arm2 false false false)
          (kmap_atomic (arm2 false false false) (boot_state [(0xb0000, 0xbfe05000)])
            0xb0001).state 0xb0002).state.current.kmap_idx ∧
      (∀ a, get_top_pte s' a = get_top_pte
        (kmap_atomic (arm2 false false false)
          (kmap_atomic (arm2 false false false) (boot_state [(0xb0000, 0xbfe05000)])
            0xb0001).state 0xb0002).state a)) :=
  ⟨(kmap_atomic_exhaustion (arm2 true false true) (arm2_layout true false true)).1 rfl
    (boot_state []) 0xb0000 0xb0001 0xb0002 rfl (fun _ _ _ => rfl)
    (by decide) (by decide) (by decide) (Or.inr rfl) (Or.inr rfl) (Or.inr rfl),
   by decide,
   (kmap_atomic_exhaustion (arm2 false false false) (arm2_layout false false false)).2.2.2
    (kmap_atomic (arm2 false false false)
      (kmap_atomic (arm2 false false false) (boot_state [(0xb0000, 0xbfe05000)])
        0xb0001).state 0xb0002).state 0xb0000 (by decide)
    (by
      intro h
      rcases h with ⟨h1, -⟩ | h
      · exact absurd h1 (by decide)
      · exact absurd h (by decide))⟩

/-! ## Nested maps followed by the matching unmaps -/

theorem kunmap_atomic_all_append (c : Arch) (xs ys : List Nat) :
    ∀ (s s' : State), kunmap_atomic_all c s xs = .ok () s' →
      kunmap_atomic_all c s (xs ++ ys) = kunmap_atomic_all c s' ys := by
  induction xs with
  | nil =>
    intro s s' h
    simp only [kunmap_atomic_all, Outcome.ok.injEq, true_and] at h
    subst h
    rfl
  | cons x xs ih =>
    intro s s' h
    simp only [kunmap_atomic_all, List.cons_append] at h ⊢
    cases hx : __kunmap_atomic c s x with
    | bug w t => rw [hx] at h; simp at h
    | ok r t =>
      rw [hx] at h
      simp only at h ⊢
      exact ih t s' h

theorem ReturnedFor.pull_pkmap {c : Arch} {s s' : State} (hpk : s'.pkmap_vaddr = s.pkmap_vaddr)
    {page : Page} {v : Nat} (h : ReturnedFor c s' page v) : ReturnedFor c s page v := by
  constructor
  · intro hm
    exact h.1 (hm.same_pkmap hpk)
  · intro hm
    have : ¬ NoPersistentMapping c s' page := fun h' => hm (h'.same_pkmap hpk.symm)
    rw [← hpk]
    exact h.2 this

/-- Nested maps of highmem pages from any depth with enough slots left,
followed by the unmaps in reverse order: all calls return, the fixmap
addresses handed out are distinct slots at or above the starting depth, and
the unmaps bring the depth and the free slots back. -/
theorem nested_maps_unmaps (c : Arch) (hl : FixmapLayout c) :
    ∀ (pages : List Page) (s : State), 0 ≤ s.current.kmap_idx →
      s.current.kmap_idx + (pages.length : Int) ≤ (c.KM_TYPE_NR : Int) →
      SlotsFreeFrom c s s.current.kmap_idx → PkmapBelowFixmap c s →
      (∀ p ∈ pages, c.PageHighMem p = true) →
      ∃ vs s1 s2, kmap_atomic_all c s pages = .ok vs s1 ∧
        List.Forall₂ (ReturnedFor c s) pages vs ∧
        (∀ v ∈ vs, c.FIXADDR_START ≤ v →
          ∃ t : Int, s.current.kmap_idx ≤ t ∧ t < (c.KM_TYPE_NR : Int) ∧ v = slot_vaddr c t) ∧
        (vs.filter (fun v => decide (c.FIXADDR_START ≤ v))).Nodup ∧
        kunmap_atomic_all c s1 vs.reverse = .ok () s2 ∧
        s2.current.kmap_idx = s.current.kmap_idx ∧
        SlotsFreeFrom c s2 s.current.kmap_idx ∧ s2.pkmap_vaddr = s.pkmap_vaddr := by
  intro pages
  induction pages with
  | nil =>
    intro s _ _ hfree _ _
    exact ⟨[], s, s, rfl, List.Forall₂.nil, by simp, by simp, rfl, rfl, hfree, rfl⟩
  | cons p ps ih =>
    intro s h0 hlen hfree hpk hhigh
    have hp : c.PageHighMem p = true := hhigh p (List.mem_cons_self _ _)
    have hps : ∀ q ∈ ps, c.PageHighMem q = true := fun q hq => hhigh q (List.mem_cons_of_mem _ hq)
    simp only [List.length_cons, Nat.cast_add, Nat.cast_one] at hlen
    by_cases hmiss : NoPersistentMapping c s p
    · -- the page takes a slot
      obtain ⟨s', hr, hi, ht, hpk', -⟩ := kmap_atomic_highmem_ok c s p hp hmiss (by omega)
        (fun _ => hfree _ (le_refl _) (by omega))
      have hfree' : SlotsFreeFrom c s' s'.current.kmap_idx := by
        intro t ht0 ht1
        rw [hi] at ht0
        have hne : slot_vaddr c t ≠ slot_vaddr c s.current.kmap_idx := by
          intro h
          have := slot_inj c hl _ _ (by omega) ht1 h0 (by omega) h
          omega
        simp only [get_top_pte, ht, Function.update_noteq hne]
        exact hfree t (by omega) ht1
      obtain ⟨vs, s1, s2, hall, hret, hslots, hnd, hun, hi2, hfree2, hpk2⟩ :=
        ih s' (by omega) (by omega) hfree' (fun q => by rw [hpk']; exact hpk q) hps
      obtain ⟨s3, hu3, hi3, ht3, hpk3⟩ := kunmap_atomic_top c hl s2 (by omega) (by omega)
      have e : s2.current.kmap_idx - 1 = s.current.kmap_idx := by omega
      rw [e] at hu3 hi3 ht3
      have habove := slot_above c hl s.current.kmap_idx h0 (by omega)
      refine ⟨slot_vaddr c s.current.kmap_idx :: vs, s1, s3, ?_, ?_, ?_, ?_, ?_, hi3, ?_, ?_⟩
      · simp [kmap_atomic_all, hr, hall]
      · exact List.Forall₂.cons ⟨fun _ => habove, fun h => absurd hmiss h⟩
          (hret.imp (fun _ _ h => h.pull_pkmap hpk'))
      · intro v hv hfix
        rcases List.mem_cons.1 hv with rfl | hv
        · exact ⟨_, le_refl _, by omega, rfl⟩
        · obtain ⟨t, a, b, rfl⟩ := hslots v hv hfix
          exact ⟨t, by omega, b, rfl⟩
      · rw [List.filter_cons_of_pos (by simpa using habove)]
        refine List.nodup_cons.2 ⟨?_, hnd⟩
        intro hmem
        obtain ⟨hv, hfix⟩ := List.mem_filter.1 hmem
        obtain ⟨t, a, b, heq⟩ := hslots _ hv (by simpa using hfix)
        have := slot_inj c hl _ _ h0 (by omega) (by omega) b heq
        omega
      · rw [List.reverse_cons, kunmap_atomic_all_append c _ _ s1 s2 hun]
        simp [kunmap_atomic_all, hu3]
      · intro t ht0 ht1
        simp only [get_top_pte, ht3]
        by_cases h : slot_vaddr c t = slot_vaddr c s.current.kmap_idx
        · rw [h, Function.update_same]
        · rw [Function.update_noteq h]
          have ht' : s.current.kmap_idx + 1 ≤ t := by
            rcases eq_or_lt_of_le ht0 with heq | hlt
            · exact absurd (by rw [heq]) h
            · omega
          exact hfree2 t (by omega) ht1
      · rw [hpk3, hpk2, hpk']
    · -- the persistent mapping is reused
      have hr := kmap_atomic_reuse c s p hp hmiss
      obtain ⟨vs, s1, s2, hall, hret, hslots, hnd, hun, hi2, hfree2, hpk2⟩ :=
        ih (emit (pagefault_disable s) (.kmap_high_get p)) h0
          (by show s.current.kmap_idx + (ps.length : Int) ≤ _; omega) hfree hpk hps
      have hlt : s.pkmap_vaddr p < c.FIXADDR_START := hpk p
      obtain ⟨s3, evs, hu3, hc3, ht3, hpk3, -, -⟩ := kunmap_atomic_below c s2 _ hlt
      refine ⟨s.pkmap_vaddr p :: vs, s1, s3, ?_, ?_, ?_, ?_, ?_, ?_, ?_, ?_⟩
      · simp [kmap_atomic_all, hr, hall]
      · exact List.Forall₂.cons ⟨fun h => absurd h hmiss, fun _ => rfl⟩
          (hret.imp (fun _ _ h => h.pull_pkmap rfl))
      · intro v hv hfix
        rcases List.mem_cons.1 hv with rfl | hv
        · omega
        · exact hslots v hv hfix
      · rw [List.filter_cons_of_neg (by simpa using hlt)]
        exact hnd
      · rw [List.reverse_cons, kunmap_atomic_all_append c _ _ s1 s2 hun]
        simp [kunmap_atomic_all, hu3]
      · rw [hc3]
        exact hi2
      · intro t ht0 ht1
        simp only [get_top_pte, ht3]
        exact hfree2 t ht0 ht1
      · rw [hpk3, hpk2]
        rfl

theorem returned_all_fixmap (c : Arch) (s : State) (pages : List Page) (vs : List Nat)
    (h : List.Forall₂ (ReturnedFor c s) pages vs)
    (hmiss : ∀ p ∈ pages, NoPersistentMapping c s p) : ∀ v ∈ vs, c.FIXADDR_START ≤ v := by
  induction h with
  | nil => simp
  | cons hpv _ ih =>
    intro v hv
    rcases List.mem_cons.1 hv with rfl | hv
    · exact hpv.1 (hmiss _ (List.mem_cons_self _ _))
    · exact ih (fun p hp => hmiss p (List.mem_cons_of_mem _ hp)) v hv

/-- C2, as stated, fails: in a non-debug build, from nesting index 0 with all
slots free, two nested `kmap_atomic` calls on a highmem page that the
persistent mapper holds return the same address twice. -/
theorem kmap_atomic_nested_addresses_repeat :
    (boot_state [(0xb0000, 0xbfe05000)]).current.kmap_idx = 0 ∧
    (∀ p ∈ [0xb0000, 0xb0000], (arm false false false).PageHighMem p = true) ∧
    (kmap_atomic_all (arm false false false) (boot_state [(0xb0000, 0xbfe05000)])
      [0xb0000, 0xb0000]).ret? = some [0xbfe05000, 0xbfe05000] := by
  decide

/-- C2, amended.  From nesting index 0 with all slots of the CPU free (and the
persistent mapper's addresses below the fixmap), for `N ≤ KM_TYPE_NR` highmem
pages: the `N` nested `kmap_atomic` calls all return; a page with no
persistent mapping to reuse gets a fixmap slot address and a page the
persistent mapper holds gets that persistent address; the fixmap slot
addresses returned are pairwise distinct, so all `N` addresses are when no
page has a persistent mapping; the `N` calls of `__kunmap_atomic` on the
addresses in reverse order all return, and then the nesting index is 0 and
every slot of the CPU is free. -/
theorem kmap_atomic_nested_roundtrip (c : Arch) (hl : FixmapLayout c) (s : State)
    (pages : List Page) (hidx : s.current.kmap_idx = 0) (hfree : SlotsFreeFrom c s 0)
    (hpk : PkmapBelowFixmap c s) (hlen : pages.length ≤ c.KM_TYPE_NR)
    (hhigh : ∀ p ∈ pages, c.PageHighMem p = true) :
    ∃ vs s1 s2, kmap_atomic_all c s pages = .ok vs s1 ∧ vs.length = pages.length ∧
      List.Forall₂ (ReturnedFor c s) pages vs ∧
      (vs.filter (fun v => decide (c.FIXADDR_START ≤ v))).Nodup ∧
      ((∀ p ∈ pages, NoPersistentMapping c s p) → vs.Nodup) ∧
      kunmap_atomic_all c s1 vs.reverse = .ok () s2 ∧
      s2.current.kmap_idx = 0 ∧ SlotsFreeFrom c s2 0 := by
  have hlen' : s.current.kmap_idx + (pages.length : Int) ≤ (c.KM_TYPE_NR : Int) := by
    rw [hidx]
    have : (pages.length : Int) ≤ (c.KM_TYPE_NR : Int) := by exact_mod_cast hlen
    omega
  obtain ⟨vs, s1, s2, hall, hret, -, hnd, hun, hi2, hfree2, -⟩ :=
    nested_maps_unmaps c hl pages s (by omega) hlen' (by rw [hidx]; exact hfree) hpk hhigh
  refine ⟨vs, s1, s2, hall, hret.length_eq.symm, hret, hnd, ?_, hun, by rw [hi2, hidx], ?_⟩
  · intro hmiss
    have hall := returned_all_fixmap c s pages vs hret hmiss
    have : vs.filter (fun v => decide (c.FIXADDR_START ≤ v)) = vs :=
      List.filter_eq_self.2 (fun v hv => by simpa using hall v hv)
    rw [← this]
    exact hnd
  · rw [hidx] at hfree2
    exact hfree2

theorem kmap_atomic_nested_roundtrip_witness :
    ∃ vs s1 s2, kmap_atomic_all (arm false true true) (boot_state [(0xb0000, 0xbfe05000)])
          [0xb0001, 0xb0000, 0xb0002, 0xb0001] = .ok vs s1 ∧
      vs.length = [0xb0001, 0xb0000, 0xb0002, 0xb0001].length ∧
      List.Forall₂ (ReturnedFor (arm false true true) (boot_state [(0xb0000, 0xbfe05000)]))
        [0xb0001, 0xb0000, 0xb0002, 0xb0001] vs ∧
      (vs.filter (fun v => decide ((arm false true true).FIXADDR_START ≤ v))).Nodup ∧
      ((∀ p ∈ [0xb0001, 0xb0000, 0xb0002, 0xb0001],
        NoPersistentMapping (arm false true true) (boot_state [(0xb0000, 0xbfe05000)]) p) →
        vs.Nodup) ∧
      kunmap_atomic_all (arm false true true) s1 vs.reverse = .ok () s2 ∧
      s2.current.kmap_idx = 0 ∧ SlotsFreeFrom (arm false true true) s2 0 :=
  kmap_atomic_nested_roundtrip (arm false true true) (arm_layout false true true)
    (boot_state [(0xb0000, 0xbfe05000)]) [0xb0001, 0xb0000, 0xb0002, 0xb0001] rfl
    (fun _ _ _ => rfl)
    (fun page => by
      show (((([(0xb0000, 0xbfe05000)] : List (Page × Nat)).find?
        (fun e => e.1 == page)).map Prod.snd).getD 0) < 0xfff00000
      by_cases h : page = 0xb0000
      · subst h; decide
      · have : ((0xb0000 : Nat) == page) = false := by
          simpa using fun h' => h h'.symm
        simp [List.find?, this])
    (by decide) (by decide)

/-! ## The free-slot invariant of well-nested use -/

/-- A returning `kmap_atomic_slot` call took the slot at the nesting index. -/
theorem kmap_atomic_slot_returns (c : Arch) (s : State) (pte : Pte) (v : Nat) (s' : State)
    (h : kmap_atomic_slot c s pte = .ok v s') :
    v = slot_vaddr c s.current.kmap_idx ∧ s.current.kmap_idx + 1 ≤ (c.KM_TYPE_NR : Int) ∧
      s'.current.kmap_idx = s.current.kmap_idx + 1 ∧
      s'.top_pte = Function.update s.top_pte (slot_vaddr c s.current.kmap_idx) pte ∧
      s'.pkmap_vaddr = s.pkmap_vaddr := by
  rcases kmap_atomic_slot_cases c s pte with ⟨-, heq⟩ | ⟨-, -, -, heq⟩ | ⟨hroom, -, s'', heq, a, b, d⟩
  · rw [heq] at h; simp at h
  · rw [heq] at h; simp at h
  · rw [heq] at h
    simp only [Outcome.ok.injEq] at h
    obtain ⟨rfl, rfl⟩ := h
    exact ⟨rfl, hroom, a, b, d⟩

/-- A returning `kmap_atomic` call either handed out an address below the
fixmap and left index and page table alone, or took the slot at the nesting
index. -/
theorem kmap_atomic_returns (c : Arch) (hlow : LowmemBelowFixmap c) (s : State)
    (hpk : PkmapBelowFixmap c s) (page : Page) (v : Nat) (s' : State)
    (h : kmap_atomic c s page = .ok v s') :
    (v < c.FIXADDR_START ∧ s'.current.kmap_idx = s.current.kmap_idx ∧
      s'.top_pte = s.top_pte ∧ s'.pkmap_vaddr = s.pkmap_vaddr) ∨
    (v = slot_vaddr c s.current.kmap_idx ∧ s.current.kmap_idx + 1 ≤ (c.KM_TYPE_NR : Int) ∧
      s'.current.kmap_idx = s.current.kmap_idx + 1 ∧
      s'.top_pte = Function.update s.top_pte (slot_vaddr c s.current.kmap_idx) (mk_pte c page) ∧
      s'.pkmap_vaddr = s.pkmap_vaddr) := by
  cases hhigh : c.PageHighMem page
  · left
    have heq : kmap_atomic c s page = .ok (c.page_address page) (pagefault_disable s) := by
      simp [kmap_atomic, hhigh]
    rw [heq] at h
    simp only [Outcome.ok.injEq] at h
    obtain ⟨rfl, rfl⟩ := h
    exact ⟨hlow page hhigh, rfl, rfl, rfl⟩
  · by_cases hmiss : NoPersistentMapping c s page
    · right
      obtain ⟨s0, evs, hcur, htop, hp, -, -, heq⟩ := kmap_atomic_takes_slot c s page hhigh hmiss
      rw [heq] at h
      obtain ⟨a, b, d, e, f⟩ := kmap_atomic_slot_returns c s0 _ v s' h
      rw [hcur] at a b d e
      exact ⟨a, b, d, by rw [e, htop], by rw [f, hp]⟩
    · left
      rw [kmap_atomic_reuse c s page hhigh hmiss] at h
      simp only [Outcome.ok.injEq] at h
      obtain ⟨rfl, rfl⟩ := h
      exact ⟨hpk page, rfl, rfl, rfl⟩

/-- The invariant carried by well-nested use. -/
theorem reachable_invariant (c : Arch) (hl : FixmapLayout c) (hlow : LowmemBelowFixmap c)
    (s : State) (stk : List Nat) (h : Reachable c s stk) :
    0 ≤ s.current.kmap_idx ∧ s.current.kmap_idx ≤ (c.KM_TYPE_NR : Int) ∧
      StackOk c s.current.kmap_idx.toNat stk ∧ SlotsFreeFrom c s s.current.kmap_idx ∧
      PkmapBelowFixmap c s := by
  have push : ∀ (s s' : State) (stk : List Nat) (pte : Pte),
      0 ≤ s.current.kmap_idx → StackOk c s.current.kmap_idx.toNat stk →
      SlotsFreeFrom c s s.current.kmap_idx → PkmapBelowFixmap c s →
      s.current.kmap_idx + 1 ≤ (c.KM_TYPE_NR : Int) →
      s'.current.kmap_idx = s.current.kmap_idx + 1 →
      s'.top_pte = Function.update s.top_pte (slot_vaddr c s.current.kmap_idx) pte →
      s'.pkmap_vaddr = s.pkmap_vaddr →
      0 ≤ s'.current.kmap_idx ∧ s'.current.kmap_idx ≤ (c.KM_TYPE_NR : Int) ∧
        StackOk c s'.current.kmap_idx.toNat (slot_vaddr c s.current.kmap_idx :: stk) ∧
        SlotsFreeFrom c s' s'.current.kmap_idx ∧ PkmapBelowFixmap c s' := by
    intro s s' stk pte h0 hstk hfree hpk hroom hi ht hp
    refine ⟨by omega, by omega, ?_, ?_, fun q => by rw [hp]; exact hpk q⟩
    · refine Or.inr ⟨slot_above c hl _ h0 (by omega), s.current.kmap_idx.toNat, by omega, ?_, hstk⟩
      rw [Int.toNat_of_nonneg h0]
    · intro t ht0 ht1
      rw [hi] at ht0
      have hne : slot_vaddr c t ≠ slot_vaddr c s.current.kmap_idx := by
        intro h
        have := slot_inj c hl _ _ (by omega) ht1 h0 (by omega) h
        omega
      simp only [get_top_pte, ht, Function.update_noteq hne]
      exact hfree t (by omega) ht1
  induction h with
  | init s hidx hfree hpk =>
    refine ⟨by omega, by omega, ?_, by rw [hidx]; exact hfree, hpk⟩
    rw [hidx]
    rfl
  | map s s' stk page v _ hcall ih =>
    obtain ⟨h0, h1, hstk, hfree, hpk⟩ := ih
    rcases kmap_atomic_returns c hlow s hpk page v s' hcall with
      ⟨hv, hi, ht, hp⟩ | ⟨rfl, hroom, hi, ht, hp⟩
    · refine ⟨by omega, by omega, Or.inl ⟨hv, by rw [hi]; exact hstk⟩, ?_,
        fun q => by rw [hp]; exact hpk q⟩
      intro t ht0 ht1
      rw [hi] at ht0
      simp only [get_top_pte, ht]
      exact hfree t ht0 ht1
    · exact push s s' stk _ h0 hstk hfree hpk hroom hi ht hp
  | map_pfn s s' stk pfn v _ hcall ih =>
    obtain ⟨h0, h1, hstk, hfree, hpk⟩ := ih
    obtain ⟨rfl, hroom, hi, ht, hp⟩ :=
      kmap_atomic_slot_returns c (pagefault_disable s) (c.pfn_pte pfn) v s' hcall
    exact push s s' stk _ h0 hstk hfree hpk hroom hi ht hp
  | unmap s s' stk v _ hcall ih =>
    obtain ⟨h0, h1, hstk, hfree, hpk⟩ := ih
    rcases hstk with ⟨hv, hstk⟩ | ⟨hv, j, hj, rfl, hstk⟩
    · obtain ⟨s'', evs, heq, hc, ht, hp, -, -⟩ := kunmap_atomic_below c s v hv
      rw [heq] at hcall
      simp only [Outcome.ok.injEq, true_and] at hcall
      subst hcall
      rw [hc]
      refine ⟨h0, h1, hstk, ?_, fun q => by rw [hp]; exact hpk q⟩
      intro t ht0 ht1
      simp only [get_top_pte, ht]
      exact hfree t ht0 ht1
    · have hidx : s.current.kmap_idx = (j : Int) + 1 := by omega
      obtain ⟨s'', heq, hi, ht, hp⟩ := kunmap_atomic_top c hl s (by omega) h1
      have e : s.current.kmap_idx - 1 = (j : Int) := by omega
      rw [e] at heq hi ht
      rw [heq] at hcall
      simp only [Outcome.ok.injEq, true_and] at hcall
      subst hcall
      refine ⟨by omega, by omega, by rw [hi]; simpa using hstk, ?_,
        fun q => by rw [hp]; exact hpk q⟩
      intro t ht0 ht1
      rw [hi] at ht0
      simp only [get_top_pte, ht]
      by_cases h : slot_vaddr c t = slot_vaddr c (j : Int)
      · rw [h, Function.update_same]
      · rw [Function.update_noteq h]
        have ht' : s.current.kmap_idx ≤ t := by
          rcases eq_or_lt_of_le ht0 with heq' | hlt
          · exact absurd (by rw [heq']) h
          · omega
        exact hfree t ht' ht1

theorem arm_lowmem (debug rt vivt : Bool) : LowmemBelowFixmap (arm debug rt vivt) := by
  intro (page : Nat) h
  have h' : page < 0xaf800 := by simpa [arm] using h
  show ((page + 1048576 - 0x80000) * 4096 + 0xc0000000) % 4294967296 < (0xfff00000 : Nat)
  omega

/-- C9: in every state reached from nesting index 0 with all slots free by
well-nested `kmap_atomic` / `kmap_atomic_pfn` / `__kunmap_atomic` calls, every
slot of the current CPU with index at or above the nesting index has an empty
page-table entry; in particular the slot the next map would take reads as
none, and neither `kmap_atomic` nor `kmap_atomic_pfn` halts in
`BUG_ON(!pte_none(get_top_pte(vaddr)))`. -/
theorem reachable_slots_free (c : Arch) (hl : FixmapLayout c) (hlow : LowmemBelowFixmap c)
    (s : State) (stk : List Nat) (h : Reachable c s stk) :
    SlotsFreeFrom c s s.current.kmap_idx ∧
    (s.current.kmap_idx < (c.KM_TYPE_NR : Int) →
      pte_none (get_top_pte s (slot_vaddr c s.current.kmap_idx)) = true) ∧
    (∀ page, (kmap_atomic c s page).why? ≠ some .slot_not_free) ∧
    (∀ pfn, (kmap_atomic_pfn c s pfn).why? ≠ some .slot_not_free) := by
  obtain ⟨h0, h1, -, hfree, hpk⟩ := reachable_invariant c hl hlow s stk h
  have hslot : ∀ (s0 : State) (pte : Pte), s0.current = s.current → s0.top_pte = s.top_pte →
      (kmap_atomic_slot c s0 pte).why? ≠ some .slot_not_free := by
    intro s0 pte hcur htop
    rcases kmap_atomic_slot_cases c s0 pte with ⟨-, heq⟩ | ⟨hroom, -, hne, -⟩ | ⟨-, -, s', heq, -⟩
    · rw [heq]; simp [Outcome.why?]
    · rw [hcur] at hroom hne
      exact absurd (by simpa [get_top_pte, htop] using hfree _ (le_refl _) (by omega)) hne
    · rw [heq]; simp [Outcome.why?]
  refine ⟨hfree, fun hlt => ?_, fun page => ?_, fun pfn => hslot _ _ rfl rfl⟩
  · simp [pte_none, hfree _ (le_refl _) hlt]
  · cases hhigh : c.PageHighMem page
    · rw [kmap_atomic_low_eq c s page hhigh]; simp [Outcome.why?]
    · by_cases hmiss : NoPersistentMapping c s page
      · obtain ⟨s0, evs, hcur, htop, -, -, -, heq⟩ := kmap_atomic_takes_slot c s page hhigh hmiss
        rw [heq]
        exact hslot s0 _ hcur htop
      · rw [kmap_atomic_reuse c s page hhigh hmiss]; simp [Outcome.why?]

theorem reachable_slots_free_witness :
    SlotsFreeFrom (arm true false true)
      (__kunmap_atomic (arm true false true)
        (kmap_atomic (arm true false true) (boot_state []) 0xb0000).state 0xfff10000).state
      (__kunmap_atomic (arm true false true)
        (kmap_atomic (arm true false true) (boot_state []) 0xb0000).state 0xfff10000).state.current.kmap_idx ∧
    ((__kunmap_atomic (arm true false true)
        (kmap_atomic (arm true false true) (boot_state []) 0xb0000).state 0xfff10000).state.current.kmap_idx
        < ((arm true false true).KM_TYPE_NR : Int) →
      pte_none (get_top_pte
        (__kunmap_atomic (arm true false true)
          (kmap_atomic (arm true false true) (boot_state []) 0xb0000).state 0xfff10000).state
        (slot_vaddr (arm true false true)
          (__kunmap_atomic (arm true false true)
            (kmap_atomic (arm true false true) (boot_state []) 0xb0000).state
            0xfff10000).state.current.kmap_idx)) = true) ∧
    (∀ page, (kmap_atomic (arm true false true)
        (__kunmap_atomic (arm true false true)
          (kmap_atomic (arm true false true) (boot_state []) 0xb0000).state 0xfff10000).state
        page).why? ≠ some .slot_not_free) ∧
    (∀ pfn, (kmap_atomic_pfn (arm true false true)
        (__kunmap_atomic (arm true false true)
          (kmap_atomic (arm true false true) (boot_state []) 0xb0000).state 0xfff10000).state
        pfn).why? ≠ some .slot_not_free) :=
  reachable_slots_free (arm true false true) (arm_layout true false true)
    (arm_lowmem true false true) _ []
    (Reachable.unmap (kmap_atomic (arm true false true) (boot_state []) 0xb0000).state _ []
      0xfff10000
      (Reachable.map (boot_state []) _ [] 0xb0000 0xfff10000
        (Reachable.init (boot_state []) rfl (fun _ _ _ => rfl)
          (fun _ => by show (0 : Nat) < 0xfff00000; decide)) rfl)
      rfl)

/-! ## Saving and restoring slots across a task switch -/

theorem switch_kmaps_clear_pkmap (c : Arch) (s : State) (n : Nat) :
    (switch_kmaps_clear c s n).pkmap_vaddr = s.pkmap_vaddr := by
  induction n with
  | zero => rfl
  | succ n ih => simpa [switch_kmaps_clear] using ih

theorem switch_kmaps_restore_pkmap (c : Arch) (next_p : Task) (s : State) (n : Nat) :
    (switch_kmaps_restore c next_p s n).pkmap_vaddr = s.pkmap_vaddr := by
  induction n with
  | zero => rfl
  | succ n ih =>
    simp only [switch_kmaps_restore]
    split
    · simpa using ih
    · exact ih

theorem switch_kmaps_clear_hit (c : Arch) (s : State) (n i : Nat) (hi : i < n) :
    (switch_kmaps_clear c s n).top_pte (slot_vaddr c (i : Int)) = 0 := by
  induction n with
  | zero => omega
  | succ n ih =>
    simp only [switch_kmaps_clear, set_top_pte_top_pte]
    by_cases h : slot_vaddr c (i : Int) = slot_vaddr c (n : Int)
    · rw [h, Function.update_same]
    · rw [Function.update_noteq h]
      have : i ≠ n := fun e => h (by rw [e])
      exact ih (by omega)

theorem switch_kmaps_clear_miss (c : Arch) (s : State) (n : Nat) (a : Nat)
    (ha : ∀ i : Nat, i < n → a ≠ slot_vaddr c (i : Int)) :
    (switch_kmaps_clear c s n).top_pte a = s.top_pte a := by
  induction n with
  | zero => rfl
  | succ n ih =>
    simp only [switch_kmaps_clear, set_top_pte_top_pte]
    rw [Function.update_noteq (ha n (by omega))]
    exact ih (fun i hi => ha i (by omega))

theorem switch_kmaps_restore_hit (c : Arch) (hl : FixmapLayout c) (next_p : Task) (s : State)
    (n i : Nat) (hn : n ≤ c.KM_TYPE_NR) (hi : i < n) (hpte : next_p.kmap_pte (i : Int) ≠ 0) :
    (switch_kmaps_restore c next_p s n).top_pte (slot_vaddr c (i : Int))
      = next_p.kmap_pte (i : Int) := by
  induction n with
  | zero => omega
  | succ n ih =>
    simp only [switch_kmaps_restore]
    by_cases hin : i = n
    · subst hin
      have : (!pte_none (next_p.kmap_pte (i : Int))) = true := by
        simpa [pte_none] using hpte
      rw [if_pos this, set_top_pte_top_pte, Function.update_same]
    · have hlt : i < n := by omega
      have hne : slot_vaddr c (i : Int) ≠ slot_vaddr c (n : Int) := by
        intro h
        have := slot_inj c hl _ _ (by omega) (by omega) (by omega) (by omega) h
        omega
      split
      · rw [set_top_pte_top_pte, Function.update_noteq hne]
        exact ih (by omega) hlt
      · exact ih (by omega) hlt

theorem switch_kmaps_restore_miss (c : Arch) (next_p : Task) (s : State) (n : Nat) (a : Nat)
    (ha : ∀ i : Nat, i < n → next_p.kmap_pte (i : Int) ≠ 0 → a ≠ slot_vaddr c (i : Int)) :
    (switch_kmaps_restore c next_p s n).top_pte a = s.top_pte a := by
  induction n with
  | zero => rfl
  | succ n ih =>
    simp only [switch_kmaps_restore]
    split
    · rename_i h
      have hp : next_p.kmap_pte (n : Int) ≠ 0 := by simpa [pte_none] using h
      rw [set_top_pte_top_pte, Function.update_noteq (ha n (by omega) hp)]
      exact ih (fun i hi => ha i (by omega))
    · exact ih (fun i hi => ha i (by omega))

/-- After `switch_kmaps`, a slot recorded as bound in the incoming task's
snapshot holds the recorded entry. -/
theorem switch_kmaps_restored (c : Arch) (hl : FixmapLayout c) (s : State)
    (prev_p next_p : Task) (hnext : next_p.kmap_idx ≤ (c.KM_TYPE_NR : Int)) (i : Nat)
    (hi : (i : Int) < next_p.kmap_idx) (hpte : next_p.kmap_pte (i : Int) ≠ 0) :
    get_top_pte (switch_kmaps c s prev_p next_p) (slot_vaddr c (i : Int))
      = next_p.kmap_pte (i : Int) :=
  switch_kmaps_restore_hit c hl next_p _ _ i (by omega) (by omega) hpte

/-- After `switch_kmaps`, a slot of the outgoing task that the incoming task's
snapshot does not rebind is free. -/
theorem switch_kmaps_cleared (c : Arch) (hl : FixmapLayout c) (s : State)
    (prev_p next_p : Task) (hprev : prev_p.kmap_idx ≤ (c.KM_TYPE_NR : Int))
    (hnext : next_p.kmap_idx ≤ (c.KM_TYPE_NR : Int)) (i : Nat)
    (hi : (i : Int) < prev_p.kmap_idx)
    (hnot : ¬ ((i : Int) < next_p.kmap_idx ∧ next_p.kmap_pte (i : Int) ≠ 0)) :
    get_top_pte (switch_kmaps c s prev_p next_p) (slot_vaddr c (i : Int)) = 0 := by
  simp only [get_top_pte, switch_kmaps]
  rw [switch_kmaps_restore_miss]
  · exact switch_kmaps_clear_hit c s _ i (by omega)
  · intro j hj hp h
    have := slot_inj c hl _ _ (by omega) (by omega) (by omega) (by omega) h
    have hij : i = j := by exact_mod_cast this
    subst hij
    exact hnot ⟨by omega, hp⟩

theorem context_switch_pkmap (c : Arch) (s : State) (next_p : Task) :
    (context_switch c s next_p).pkmap_vaddr = s.pkmap_vaddr := by
  show (switch_kmaps c s s.current next_p).pkmap_vaddr = s.pkmap_vaddr
  simp only [switch_kmaps]
  rw [switch_kmaps_restore_pkmap, switch_kmaps_clear_pkmap]

/-- C5: under `CONFIG_PREEMPT_RT_FULL`, after `switch_kmaps(prev, next)` every
slot `i < next.kmap_idx` whose snapshot entry is not none holds exactly that
entry, and every slot `i < prev.kmap_idx` not so restored is free.  And the
scenario: T1 (the running task, depth 0) maps highmem page A into slot 0 and
is switched out for T2; T2 maps highmem page B into slot 0 and unmaps it; T1
is switched back in: slot 0 holds A's entry `mk_pte(A, kmap_prot)`, which the
reverse lookup turns into page A. -/
theorem switch_kmaps_preserves (c : Arch) (hl : FixmapLayout c)
    (hrt : c.PREEMPT_RT_FULL = true) :
    (∀ (s : State) (prev_p next_p : Task),
      prev_p.kmap_idx ≤ (c.KM_TYPE_NR : Int) → next_p.kmap_idx ≤ (c.KM_TYPE_NR : Int) →
      (∀ i : Nat, (i : Int) < next_p.kmap_idx → next_p.kmap_pte (i : Int) ≠ 0 →
        get_top_pte (switch_kmaps c s prev_p next_p) (slot_vaddr c (i : Int))
          = next_p.kmap_pte (i : Int)) ∧
      (∀ i : Nat, (i : Int) < prev_p.kmap_idx →
        ¬ ((i : Int) < next_p.kmap_idx ∧ next_p.kmap_pte (i : Int) ≠ 0) →
        get_top_pte (switch_kmaps c s prev_p next_p) (slot_vaddr c (i : Int)) = 0)) ∧
    (∀ (s : State) (T2 : Task) (A B : Page), 1 ≤ c.KM_TYPE_NR →
      s.current.kmap_idx = 0 → T2.kmap_idx = 0 → SlotsFreeFrom c s 0 →
      c.PageHighMem A = true → c.PageHighMem B = true →
      NoPersistentMapping c s A → NoPersistentMapping c s B →
      ∃ s1 s3 s4, kmap_atomic c s A = .ok (slot_vaddr c 0) s1 ∧
        kmap_atomic c (context_switch c s1 T2) B = .ok (slot_vaddr c 0) s3 ∧
        get_top_pte s3 (slot_vaddr c 0) = mk_pte c B ∧
        __kunmap_atomic c s3 (slot_vaddr c 0) = .ok () s4 ∧
        get_top_pte s4 (slot_vaddr c 0) = 0 ∧
        (context_switch c s4 s1.current).current.kmap_idx = 1 ∧
        get_top_pte (context_switch c s4 s1.current) (slot_vaddr c 0) = mk_pte c A ∧
        (c.pte_pfn (c.pfn_pte A) = A →
          kmap_atomic_to_page c (context_switch c s4 s1.current) (slot_vaddr c 0) = A)) := by
  refine ⟨fun s prev_p next_p hprev hnext =>
    ⟨fun i hi hpte => switch_kmaps_restored c hl s prev_p next_p hnext i hi hpte,
     fun i hi hnot => switch_kmaps_cleared c hl s prev_p next_p hprev hnext i hi hnot⟩, ?_⟩
  intro s T2 A B hKM hidx hT2 hfree hA hB mA mB
  have hKM' : (1 : Int) ≤ (c.KM_TYPE_NR : Int) := by exact_mod_cast hKM
  -- T1 maps A
  obtain ⟨s1, hr1, hi1, ht1, hp1, hk1⟩ := kmap_atomic_highmem_ok c s A hA mA (by omega)
    (fun _ => by rw [hidx]; exact hfree 0 (le_refl _) (by omega))
  rw [hidx] at hr1 hi1 ht1 hk1
  rw [if_pos hrt] at hk1
  have hi1' : s1.current.kmap_idx = 1 := by omega
  -- T1 is switched out for T2
  have hfree2 : get_top_pte (context_switch c s1 T2) (slot_vaddr c 0) = 0 := by
    have := switch_kmaps_cleared c hl s1 s1.current T2 (by omega) (by omega) 0
      (by simp [hi1']) (by simp [hT2])
    simpa using this
  have hidx2 : (context_switch c s1 T2).current.kmap_idx = 0 := hT2
  -- T2 maps B and unmaps it
  obtain ⟨s3, hr3, hi3, ht3, -, -⟩ := kmap_atomic_highmem_ok c (context_switch c s1 T2) B hB
    (mB.same_pkmap ((context_switch_pkmap c s1 T2).trans hp1)) (by omega)
    (fun _ => by rw [hidx2]; exact hfree2)
  rw [hidx2] at hr3 hi3 ht3
  obtain ⟨s4, hu4, hi4, ht4, -⟩ := kunmap_atomic_top c hl s3 (by omega) (by omega)
  have e : s3.current.kmap_idx - 1 = 0 := by omega
  rw [e] at hu4 hi4 ht4
  -- T1 is switched back in
  have hk0 : s1.current.kmap_pte 0 = mk_pte c A := by rw [hk1, Function.update_same]
  have hback : get_top_pte (context_switch c s4 s1.current) (slot_vaddr c 0) = mk_pte c A := by
    by_cases hz : mk_pte c A = 0
    · show (switch_kmaps c s4 s4.current s1.current).top_pte (slot_vaddr c 0) = mk_pte c A
      simp only [switch_kmaps]
      rw [switch_kmaps_restore_miss, switch_kmaps_clear_miss, ht4, Function.update_same, hz]
      · intro i hi
        rw [hi4] at hi
        simp at hi
      · intro i hi hp
        rw [hi1'] at hi
        have hi0 : i = 0 := by simpa using hi
        subst hi0
        simp only [Nat.cast_zero] at hp
        exact absurd (hk0.trans hz) hp
    · have := switch_kmaps_restored c hl s4 s4.current s1.current (by omega) 0
        (by simp [hi1']) (by simpa [hk0] using hz)
      simpa [hk0] using this
  refine ⟨s1, s3, s4, hr1, hr3, by simp [get_top_pte, ht3], hu4, by simp [get_top_pte, ht4],
    hi1', hback, fun hround => ?_⟩
  have habove := slot_above c hl 0 (le_refl _) (by omega)
  have hnlt : ¬ slot_vaddr c 0 < c.FIXADDR_START := by omega
  simp only [kmap_atomic_to_page, hnlt, if_false, hback, pte_page, mk_pte, hround]

theorem switch_kmaps_preserves_witness :
    ∃ s1 s3 s4, kmap_atomic (arm true true false) (boot_state []) 0xb0000
          = .ok (slot_vaddr (arm true true false) 0) s1 ∧
      kmap_atomic (arm true true false) (context_switch (arm true true false) s1 idle_task)
          0xb0001 = .ok (slot_vaddr (arm true true false) 0) s3 ∧
      get_top_pte s3 (slot_vaddr (arm true true false) 0) = mk_pte (arm true true false) 0xb0001 ∧
      __kunmap_atomic (arm true true false) s3 (slot_vaddr (arm true true false) 0) = .ok () s4 ∧
      get_top_pte s4 (slot_vaddr (arm true true false) 0) = 0 ∧
      (context_switch (arm true true false) s4 s1.current).current.kmap_idx = 1 ∧
      get_top_pte (context_switch (arm true true false) s4 s1.current)
        (slot_vaddr (arm true true false) 0) = mk_pte (arm true true false) 0xb0000 ∧
      ((arm true true false).pte_pfn ((arm true true false).pfn_pte 0xb0000) = 0xb0000 →
        kmap_atomic_to_page (arm true true false)
          (context_switch (arm true true false) s4 s1.current)
          (slot_vaddr (arm true true false) 0) = 0xb0000) :=
  (switch_kmaps_preserves (arm true true false) (arm_layout true true false) rfl).2
    (boot_state []) idle_task 0xb0000 0xb0001 (by decide) rfl rfl (fun _ _ _ => rfl)
    (by decide) (by decide) (Or.inr rfl) (Or.inr rfl)

/-! ## Reverse lookup -/

/-- For a page that is not highmem, the reverse lookup of the address
`kmap_atomic` returned is `virt_to_page(page_address(page))`. -/
theorem kmap_atomic_to_page_lowmem (c : Arch) (hlow : LowmemBelowFixmap c) (s : State)
    (page : Page) (hpage : c.PageHighMem page = false)
    (hround : c.virt_to_page (c.page_address page) = page) :
    ∃ v s', kmap_atomic c s page = .ok v s' ∧ kmap_atomic_to_page c s' v = page := by
  refine ⟨_, _, kmap_atomic_low_eq c s page hpage, ?_⟩
  simp [kmap_atomic_to_page, hlow page hpage, hround]

/-- For a highmem page bound into a fixmap slot, the reverse lookup of the
address `kmap_atomic` returned gives the page back, when `pte_pfn` undoes
`pfn_pte` on its frame. -/
theorem kmap_atomic_to_page_slot (c : Arch) (hl : FixmapLayout c) (s : State) (page : Page)
    (hhigh : c.PageHighMem page = true) (hmiss : NoPersistentMapping c s page)
    (h0 : 0 ≤ s.current.kmap_idx) (hroom : s.current.kmap_idx + 1 ≤ (c.KM_TYPE_NR : Int))
    (hfree : SlotsFreeFrom c s s.current.kmap_idx)
    (hround : c.pte_pfn (c.pfn_pte page) = page) :
    ∃ v s', kmap_atomic c s page = .ok v s' ∧ kmap_atomic_to_page c s' v = page := by
  obtain ⟨s', hr, -, ht, -, -⟩ := kmap_atomic_highmem_ok c s page hhigh hmiss hroom
    (fun _ => hfree _ (le_refl _) (by omega))
  refine ⟨_, s', hr, ?_⟩
  have habove := slot_above c hl _ h0 (by omega)
  have hnlt : ¬ slot_vaddr c s.current.kmap_idx < c.FIXADDR_START := by omega
  simp [kmap_atomic_to_page, hnlt, get_top_pte, ht, pte_page, mk_pte, hround]

/-- For a frame bound by `kmap_atomic_pfn`, the reverse lookup of the address
returned gives the frame's page, when `pte_pfn` undoes `pfn_pte` on it. -/
theorem kmap_atomic_to_page_pfn (c : Arch) (hl : FixmapLayout c) (s : State) (pfn : Nat)
    (h0 : 0 ≤ s.current.kmap_idx) (hroom : s.current.kmap_idx + 1 ≤ (c.KM_TYPE_NR : Int))
    (hfree : SlotsFreeFrom c s s.current.kmap_idx)
    (hround : c.pte_pfn (c.pfn_pte pfn) = pfn) :
    ∃ v s', kmap_atomic_pfn c s pfn = .ok v s' ∧ kmap_atomic_to_page c s' v = pfn := by
  obtain ⟨s', hr, -, ht, -, -⟩ := kmap_atomic_slot_ok c (pagefault_disable s) (c.pfn_pte pfn)
    hroom (fun _ => hfree s.current.kmap_idx (le_refl _) (by omega))
  refine ⟨_, s', hr, ?_⟩
  have habove := slot_above c hl _ h0 (by omega)
  have hnlt : ¬ slot_vaddr c s.current.kmap_idx < c.FIXADDR_START := by omega
  have hnlt' : ¬ slot_vaddr c (pagefault_disable s).current.kmap_idx < c.FIXADDR_START := hnlt
  simp [kmap_atomic_to_page, hnlt', get_top_pte, ht, pte_page, hround]

/-- Whatever `virt_to_page` is, the reverse lookup cannot be right for
addresses reused from the persistent mapper: it answers from the address
alone, and one persistent address serves different pages at different times.
If the persistent mapper holds page `A` in one state and page `B` at the same
address in another, the round trip fails in at least one of them. -/
theorem kmap_atomic_to_page_persistent_conflict (c : Arch) (sA sB : State) (A B : Page)
    (hAB : A ≠ B) (hA : c.PageHighMem A = true) (hB : c.PageHighMem B = true)
    (hcfg : ¬ (c.DEBUG_HIGHMEM = true ∧ c.cache_is_vivt = false))
    (hmapA : sA.pkmap_vaddr A ≠ 0) (hsame : sB.pkmap_vaddr B = sA.pkmap_vaddr A)
    (hbelow : sA.pkmap_vaddr A < c.FIXADDR_START) :
    ¬ ((∀ v s', kmap_atomic c sA A = .ok v s' → kmap_atomic_to_page c s' v = A) ∧
       (∀ v s', kmap_atomic c sB B = .ok v s' → kmap_atomic_to_page c s' v = B)) := by
  rintro ⟨h1, h2⟩
  have hitA : ¬ NoPersistentMapping c sA A := fun h => h.elim hcfg hmapA
  have hitB : ¬ NoPersistentMapping c sB B := fun h => h.elim hcfg (by rw [hsame]; exact hmapA)
  have e1 := h1 _ _ (kmap_atomic_reuse c sA A hA hitA)
  have e2 := h2 _ _ (kmap_atomic_reuse c sB B hB hitB)
  rw [hsame] at e2
  simp only [kmap_atomic_to_page, hbelow, if_true] at e1 e2
  exact hAB (e1.symm.trans e2)

/-- C8 fails on the persistent-mapper path.  On the board above, in a
non-debug build, highmem page `0xb0000` is held by the persistent mapper at
`0xbfe05000`: `kmap_atomic` returns that address, and `kmap_atomic_to_page` of
it is `virt_to_page(0xbfe05000)`, frame `0x7fe05`, not the page; the unmap
path, given the same address, finds the page through `pkmap_page_table`. -/
theorem kmap_atomic_to_page_persistent_address :
    (arm false false false).PageHighMem 0xb0000 = true ∧
    (kmap_atomic (arm false false false) (boot_state [(0xb0000, 0xbfe05000)]) 0xb0000).ret?
      = some 0xbfe05000 ∧
    kmap_atomic_to_page (arm false false false)
      (kmap_atomic (arm false false false) (boot_state [(0xb0000, 0xbfe05000)]) 0xb0000).state
      0xbfe05000 = 0x7fe05 ∧
    Event.kunmap_high 0xb0000 ∈
      (__kunmap_atomic (arm false false false)
        (kmap_atomic (arm false false false) (boot_state [(0xb0000, 0xbfe05000)]) 0xb0000).state
        0xbfe05000).state.log := by
  decide

end Highmem
